import Mathlib

/-!
Verification of the RLangC front end: a shallow embedding of the tokenizer
(`src/compiler/tokenization/scanner.py`, class `SourceScanner`) and of the
recursive-descent parser (`src/compiler/syntax/builder.py`, class
`SyntaxBuilder`), together with theorems settling the frozen claims about
them.

Embedding conventions:
* Python strings become `List Char`; the scanner's mutable `idx` cursor
  becomes the remaining suffix of the input, and `row`/`col` are threaded
  explicitly.  Character classes use the ASCII meaning of `isdigit`,
  `isalpha`, `isalnum`.
* The scanner's two unhandled Python `TypeError` crash sites (concatenating
  `None` to a string after a backslash at end of input, and evaluating
  `None in ' \t'` when the leading-whitespace loop reaches end of input)
  are modelled as distinguished error values, separate from the lexical
  `SyntaxError`.
* `float(buffer)` is kept as the literal's scanned text: no claim inspects
  the numeric value of a float literal.
* The main scanning loop and the parser are given an explicit fuel
  argument so that they are structurally recursive; running out of fuel is
  a distinguished error.  Theorems about success are quantified over the
  fuel, and the canonical fuel given to `scan` is ample for every input
  actually exercised.
-/

namespace RLangC

/-! ## Token kinds (`class TokenKind`, scanner.py lines 6-45) -/

namespace TokenKind

def NUM_INT   : Nat := 0
def NUM_FLOAT : Nat := 1
def TEXT      : Nat := 2
def BOOL_T    : Nat := 3
def BOOL_F    : Nat := 4
def NULL      : Nat := 5
def FUNC_DEF  : Nat := 6
def VAR_LET   : Nat := 7
def VAR_CONST : Nat := 8
def COND_IF   : Nat := 9
def COND_ELSE : Nat := 10
def COND_ELIF : Nat := 11
def LOOP_WHILE : Nat := 12
def LOOP_FOR  : Nat := 13
def ITER_IN   : Nat := 14
def RET       : Nat := 15
def SKIP      : Nat := 16
def HALT      : Nat := 17
def STRUCT_CLASS : Nat := 18
def MOD_IMPORT : Nat := 19
def MOD_FROM  : Nat := 20
def MOD_AS    : Nat := 21
def NOOP      : Nat := 22
def NAME      : Nat := 23
def PUNCT_COLON : Nat := 24
def PUNCT_RARROW : Nat := 25
def PUNCT_COMMA : Nat := 26
def PUNCT_DOT : Nat := 27
def PUNCT_SEMI : Nat := 28
def GROUP_LPAREN : Nat := 29
def GROUP_RPAREN : Nat := 30
def GROUP_LBRACE : Nat := 31
def GROUP_RBRACE : Nat := 32
def GROUP_LSQUARE : Nat := 33
def GROUP_RSQUARE : Nat := 34
def ARITH_ADD : Nat := 35
def ARITH_SUB : Nat := 36
def ARITH_MUL : Nat := 37
def ARITH_DIV : Nat := 38
def ARITH_MOD : Nat := 39
def ARITH_POW : Nat := 40
def ARITH_FLOORDIV : Nat := 41
def CMP_EQ    : Nat := 42
def CMP_NEQ   : Nat := 43
def CMP_LT    : Nat := 44
def CMP_LTE   : Nat := 45
def CMP_GT    : Nat := 46
def CMP_GTE   : Nat := 47
def LOGIC_AND : Nat := 48
def LOGIC_OR  : Nat := 49
def LOGIC_NOT : Nat := 50
def BIT_AND   : Nat := 51
def BIT_OR    : Nat := 52
def BIT_XOR   : Nat := 53
def BIT_NOT   : Nat := 54
def BIT_SHL   : Nat := 55
def BIT_SHR   : Nat := 56
def ASSIGN    : Nat := 57
def ASSIGN_ADD : Nat := 58
def ASSIGN_SUB : Nat := 59
def ASSIGN_MUL : Nat := 60
def ASSIGN_DIV : Nat := 61
def NEWLINE   : Nat := 62
def INDENT    : Nat := 63
def DEDENT    : Nat := 64
def END       : Nat := 65

end TokenKind

/-- The dynamic value attached to a token (`CodeToken.val`).  In the Python
source this is an `int`, `float`, `str`, `bool` or `None`; a float literal
keeps its scanned text here, since no verified property reads its numeric
value. -/
inductive Val where
  | int (n : Int)
  | float (text : String)
  | str (s : String)
  | bool (b : Bool)
  | none
  deriving DecidableEq, Repr

/-- `class CodeToken` (scanner.py lines 61-73). -/
structure CodeToken where
  kind : Nat
  text : String
  val : Val
  row : Nat
  col : Nat
  deriving DecidableEq, Repr

/-- Scan failure.  `badChar` is the `SyntaxError("Unknown character ...")`
raised at scanner.py line 306; `typeErrorIndent` is the Python `TypeError`
raised by `self.peek_ahead() in ' \t'` (line 211) when the peek returns
`None`; `typeErrorEscape` is the Python `TypeError` raised by
`buffer += escape_map.get(None, None)` (line 160) when a string's escape
backslash is the last input character; `fuel` marks exhaustion of the
embedding's fuel and never occurs at the canonical fuel. -/
inductive ScanErr where
  | badChar (ch : Char) (row col : Nat)
  | typeErrorIndent
  | typeErrorEscape
  | fuel
  deriving DecidableEq, Repr

/-- `SourceScanner.RESERVED_WORDS` (scanner.py lines 79-103). -/
def RESERVED_WORDS : List (String × Nat) :=
  [("def", TokenKind.FUNC_DEF), ("let", TokenKind.VAR_LET),
   ("const", TokenKind.VAR_CONST), ("if", TokenKind.COND_IF),
   ("else", TokenKind.COND_ELSE), ("elif", TokenKind.COND_ELIF),
   ("while", TokenKind.LOOP_WHILE), ("for", TokenKind.LOOP_FOR),
   ("in", TokenKind.ITER_IN), ("return", TokenKind.RET),
   ("break", TokenKind.SKIP), ("continue", TokenKind.HALT),
   ("class", TokenKind.STRUCT_CLASS), ("import", TokenKind.MOD_IMPORT),
   ("from", TokenKind.MOD_FROM), ("as", TokenKind.MOD_AS),
   ("pass", TokenKind.NOOP), ("true", TokenKind.BOOL_T),
   ("false", TokenKind.BOOL_F), ("none", TokenKind.NULL),
   ("and", TokenKind.LOGIC_AND), ("or", TokenKind.LOGIC_OR),
   ("not", TokenKind.LOGIC_NOT)]

/-- The two-character operator table (scanner.py lines 269-277). -/
def two_char_ops : List (String × Nat) :=
  [("==", TokenKind.CMP_EQ), ("!=", TokenKind.CMP_NEQ),
   ("<=", TokenKind.CMP_LTE), (">=", TokenKind.CMP_GTE),
   ("<<", TokenKind.BIT_SHL), (">>", TokenKind.BIT_SHR),
   ("**", TokenKind.ARITH_POW), ("//", TokenKind.ARITH_FLOORDIV),
   ("->", TokenKind.PUNCT_RARROW),
   ("+=", TokenKind.ASSIGN_ADD), ("-=", TokenKind.ASSIGN_SUB),
   ("*=", TokenKind.ASSIGN_MUL), ("/=", TokenKind.ASSIGN_DIV)]

/-- The one-character operator table (scanner.py lines 287-299). -/
def single_ops : List (Char × Nat) :=
  [('+', TokenKind.ARITH_ADD), ('-', TokenKind.ARITH_SUB),
   ('*', TokenKind.ARITH_MUL), ('/', TokenKind.ARITH_DIV),
   ('%', TokenKind.ARITH_MOD), ('<', TokenKind.CMP_LT),
   ('>', TokenKind.CMP_GT), ('=', TokenKind.ASSIGN),
   ('&', TokenKind.BIT_AND), ('|', TokenKind.BIT_OR),
   ('^', TokenKind.BIT_XOR), ('~', TokenKind.BIT_NOT),
   ('(', TokenKind.GROUP_LPAREN), (')', TokenKind.GROUP_RPAREN),
   ('{', TokenKind.GROUP_LBRACE), ('}', TokenKind.GROUP_RBRACE),
   ('[', TokenKind.GROUP_LSQUARE), (']', TokenKind.GROUP_RSQUARE),
   (',', TokenKind.PUNCT_COMMA), ('.', TokenKind.PUNCT_DOT),
   (':', TokenKind.PUNCT_COLON), (';', TokenKind.PUNCT_SEMI)]

/-- `int(buffer)` for a buffer of decimal digits. -/
def int_of_digits (cs : List Char) : Int :=
  cs.foldl (fun a c => 10 * a + ((c.toNat : Int) - 48)) 0

/-- The digit loop of `SourceScanner.scan_numeric` (scanner.py lines
137-143).  Returns the scanned buffer, the decimal-point flag, the
remaining input and the updated column. -/
def scan_numeric_loop : List Char → Nat → List Char → Bool →
    List Char × Bool × List Char × Nat
  | [], col, buffer, hasDec => (buffer, hasDec, [], col)
  | c :: rest, col, buffer, hasDec =>
    if c.isDigit ∨ c = '.' then
      if c = '.' ∧ hasDec then (buffer, hasDec, c :: rest, col)
      else scan_numeric_loop rest (col + 1) (buffer ++ [c]) (hasDec ∨ c = '.')
    else (buffer, hasDec, c :: rest, col)

/-- `escape_map.get(next_ch, next_ch)` of `scan_text_literal`
(scanner.py line 159-160). -/
def escape_map_get (quote e : Char) : Char :=
  if e = 'n' then '\n'
  else if e = 't' then '\t'
  else if e = 'r' then '\r'
  else if e = '\\' then '\\'
  else if e = quote then quote
  else e

/-- The body loop of `SourceScanner.scan_text_literal` (scanner.py lines
155-166), entered after the opening quote was consumed.  Consumes through
the closing quote when one is found; stops silently at end of input;
`Option.none` is the Python `TypeError` when a backslash is the final
character. -/
def scan_text_loop (quote : Char) : List Char → Nat → Nat → List Char →
    Option (List Char × List Char × Nat × Nat)
  | [], row, col, buffer => some (buffer, [], row, col)
  | c :: rest, row, col, buffer =>
    if c = quote then some (buffer, rest, row, col + 1)
    else if c = '\\' then
      match rest with
      | [] => Option.none
      | e :: rest2 =>
        let row2 := if e = '\n' then row + 1 else row
        let col2 := if e = '\n' then 1 else col + 2
        scan_text_loop quote rest2 row2 col2 (buffer ++ [escape_map_get quote e])
    else
      scan_text_loop quote rest (if c = '\n' then row + 1 else row)
        (if c = '\n' then 1 else col + 1) (buffer ++ [c])

/-- The letter/digit/underscore loop of `SourceScanner.scan_identifier`
(scanner.py lines 174-175). -/
def scan_identifier_loop : List Char → Nat → List Char →
    List Char × List Char × Nat
  | [], col, buffer => (buffer, [], col)
  | c :: rest, col, buffer =>
    if c.isAlphanum ∨ c = '_' then
      scan_identifier_loop rest (col + 1) (buffer ++ [c])
    else (buffer, c :: rest, col)

/-- The `#`-comment skip loop (scanner.py lines 220-221 and 247-248):
consumes up to, but not including, the next newline. -/
def skip_comment : List Char → Nat → List Char × Nat
  | [], col => ([], col)
  | c :: rest, col =>
    if c = '\n' then (c :: rest, col) else skip_comment rest (col + 1)

/-- The leading-whitespace loop at line start (scanner.py lines 210-215):
a space adds 1 to the width, a tab adds 4.  `Option.none` is the Python
`TypeError` of evaluating `None in ' \t'` when the loop runs off the end
of the input. -/
def take_indent_ws : List Char → Nat → Nat → Option (Nat × List Char × Nat)
  | [], _, _ => Option.none
  | c :: rest, col, acc =>
    if c = ' ' then take_indent_ws rest (col + 1) (acc + 1)
    else if c = '\t' then take_indent_ws rest (col + 1) (acc + 4)
    else some (acc, c :: rest, col)

/-- The dedent loop of `SourceScanner.handle_line_indent` (scanner.py lines
199-201): pop and emit one DEDENT while more than one level remains and the
top exceeds the width.  The stack is kept top-first (the Python list's end
is this list's head). -/
def dedent_pops : List Nat → Nat → Nat → List Nat × List CodeToken
  | l :: l2 :: ls, spaces, row =>
    if l > spaces then
      let (levels', toks) := dedent_pops (l2 :: ls) spaces row
      (levels', ⟨TokenKind.DEDENT, "", Val.none, row, 1⟩ :: toks)
    else (l :: l2 :: ls, [])
  | ls, _, _ => (ls, [])

/-- `SourceScanner.handle_line_indent` (scanner.py lines 191-201). -/
def handle_line_indent (levels : List Nat) (spaces row : Nat) :
    List Nat × List CodeToken :=
  let current := levels.headD 0
  if spaces > current then
    (spaces :: levels, [⟨TokenKind.INDENT, "", Val.none, row, 1⟩])
  else dedent_pops levels spaces row

/-- The end-of-input flush (scanner.py lines 309-311): one DEDENT per
remaining non-bottom indentation level. -/
def flush_dedents : List Nat → Nat → Nat → List CodeToken
  | _ :: l2 :: ls, row, col =>
    ⟨TokenKind.DEDENT, "", Val.none, row, col⟩ :: flush_dedents (l2 :: ls) row col
  | _, _, _ => []

/-- `SourceScanner.tokenize` (scanner.py lines 203-314).  Arguments after
the fuel: the `line_start` flag, the remaining input, `row`, `col`, and the
indentation stack (top first). -/
def tokenize : Nat → Bool → List Char → Nat → Nat → List Nat →
    Except ScanErr (List CodeToken)
  | 0, _, _, _, _, _ => .error ScanErr.fuel
  | fuel + 1, lineStart, rest, row, col, levels =>
    match rest with
    | [] =>
      .ok (flush_dedents levels row col ++
           [⟨TokenKind.END, "", Val.none, row, col⟩])
    | c0 :: rest0 =>
      if lineStart then
        match take_indent_ws (c0 :: rest0) col 0 with
        | Option.none => .error ScanErr.typeErrorIndent
        | some (spaces, rest1, col1) =>
          match rest1 with
          | [] => .error ScanErr.typeErrorIndent
          | c1 :: rest2 =>
            if c1 = '#' then
              let (rest3, _col3) := skip_comment (c1 :: rest2) col1
              match rest3 with
              | [] => tokenize fuel true [] row _col3 levels
              | c3 :: rest4 =>
                if c3 = '\n' then tokenize fuel true rest4 (row + 1) 1 levels
                else tokenize fuel true (c3 :: rest4) row _col3 levels
            else if c1 = '\n' then
              tokenize fuel true rest2 (row + 1) 1 levels
            else
              let (levels', toks) := handle_line_indent levels spaces row
              (toks ++ ·) <$> tokenize fuel false (c1 :: rest2) row col1 levels'
      else
        if c0 = ' ' ∨ c0 = '\t' then
          tokenize fuel false rest0 row (col + 1) levels
        else if c0 = '\n' then
          (⟨TokenKind.NEWLINE, "\n", Val.str "\n", row, col⟩ :: ·) <$>
            tokenize fuel true rest0 (row + 1) 1 levels
        else if c0 = '#' then
          let (rest1, col1) := skip_comment (c0 :: rest0) col
          tokenize fuel false rest1 row col1 levels
        else if c0.isDigit then
          let (buffer, hasDec, rest1, col1) :=
            scan_numeric_loop (c0 :: rest0) col [] false
          let tok : CodeToken :=
            if hasDec then
              ⟨TokenKind.NUM_FLOAT, String.mk buffer,
               Val.float (String.mk buffer), row, col⟩
            else
              ⟨TokenKind.NUM_INT, String.mk buffer,
               Val.int (int_of_digits buffer), row, col⟩
          (tok :: ·) <$> tokenize fuel false rest1 row col1 levels
        else if c0 = '"' ∨ c0 = '\'' then
          match scan_text_loop c0 rest0 row (col + 1) [] with
          | Option.none => .error ScanErr.typeErrorEscape
          | some (buffer, rest1, row1, col1) =>
            (⟨TokenKind.TEXT, String.mk buffer, Val.str (String.mk buffer),
              row, col⟩ :: ·) <$> tokenize fuel false rest1 row1 col1 levels
        else if c0.isAlpha ∨ c0 = '_' then
          let (buffer, rest1, col1) := scan_identifier_loop (c0 :: rest0) col []
          let text := String.mk buffer
          let kind := (RESERVED_WORDS.lookup text).getD TokenKind.NAME
          let v :=
            if kind = TokenKind.BOOL_T then Val.bool true
            else if kind = TokenKind.BOOL_F then Val.bool false
            else if kind = TokenKind.NULL then Val.none
            else Val.str text
          (⟨kind, text, v, row, col⟩ :: ·) <$>
            tokenize fuel false rest1 row col1 levels
        else
          let two_ch := String.mk (c0 :: (match rest0 with
            | [] => []
            | c1 :: _ => [c1]))
          match two_char_ops.lookup two_ch with
          | some k =>
            (⟨k, two_ch, Val.str two_ch, row, col⟩ :: ·) <$>
              tokenize fuel false rest0.tail row (col + 2) levels
          | Option.none =>
            match single_ops.lookup c0 with
            | some k =>
              (⟨k, String.mk [c0], Val.str (String.mk [c0]), row, col⟩ :: ·) <$>
                tokenize fuel false rest0 row (col + 1) levels
            | Option.none => .error (ScanErr.badChar c0 row col)

/-- `scan(source)`: run `tokenize` from the initial scanner state
(scanner.py lines 105-111): position 1:1, indentation stack `[0]`,
`line_start = True`.  The fuel is ample: each loop iteration of the source
either consumes a character or permanently clears `line_start`. -/
def scan (s : String) : Except ScanErr (List CodeToken) :=
  tokenize (2 * s.data.length + 2) true s.data 1 1 [0]

/-! ## Abstract syntax tree (builder.py lines 6-173)

Every Python node class carries `self.location = (0, 0)`; nothing in the
source ever assigns to `location`, so the position metadata is constantly
`(0, 0)` and is omitted from the embedding.  Constructors that the source
feeds with `tok.val` store a `Val`. -/

/-- Expression node classes (builder.py lines 13-72). -/
inductive Expr where
  | NumNode (value : Val) (is_float : Bool)
  | TextNode (value : Val)
  | BoolNode (value : Bool)
  | NullNode
  | VarRefNode (name : Val)
  | BinOpNode (op : String) (lhs rhs : Expr)
  | UnOpNode (op : String) (operand : Expr)
  | InvokeNode (target : Expr) (args : List Expr)
  | SubscriptNode (obj idx : Expr)
  | AttrNode (obj : Expr) (attr : Val)
  | ArrayNode (items : List Expr)

/-- `class TypeSpec` (builder.py lines 75-79); `optional` defaults to
`False` and is never set by the grammar. -/
structure TypeSpec where
  name : Val
  optional : Bool

/-- `class FuncParam` (builder.py lines 98-102). -/
structure FuncParam where
  name : Val
  type_spec : Option TypeSpec
  default : Option Expr

mutual

/-- Statement node classes (builder.py lines 82-168). -/
inductive Stmt where
  | ExprStmt (expr : Expr)
  | VarDeclNode (name : Val) (type_spec : Option TypeSpec)
      (init_val : Option Expr) (immutable : Bool)
  | FuncDeclNode (name : Val) (params : List FuncParam)
      (ret_type : Option TypeSpec) (body : Block)
  | RetNode (value : Option Expr)
  | CondNode (branches : List (Expr × Block)) (fallback : Option Block)
  | LoopNode (cond : Expr) (body : Block)
  | IterNode (var : Val) (iterable : Expr) (body : Block)
  | SkipNode
  | HaltNode
  | NoopNode
  | AssignNode (target : Expr) (op : String) (value : Expr)
  | ClassDeclNode (name : Val) (body : Block)
  | ModuleImportNode (mod_name : Val) (items : Option (List Val))
      (alias_name : Option Val)  -- the source's field `alias`, a Lean keyword

/-- `class BlockNode` (builder.py lines 152-155); a block is not itself a
statement. -/
inductive Block where
  | BlockNode (stmts : List Stmt)

end

/-- `class ProgramNode` (builder.py lines 170-173). -/
structure ProgramNode where
  stmts : List Stmt

/-! ## Parser (`class SyntaxBuilder`, builder.py lines 178-631)

The mutable cursor becomes the remaining token suffix.  Each method of the
Python class, and each of its internal `while` loops, is one branch of the
single fueled function `parseFn`, selected by a `PIn` tag; thin wrappers
below restore the source's entry points. -/

/-- Parse failure.  `expected` is the `SyntaxError` of
`SyntaxBuilder.require` (builder.py line 201); `unexpectedEnd` and
`unexpectedToken` are the two `SyntaxError`s of `parse_atomic` (lines 577
and 616); `fuel` marks fuel exhaustion (it also stands for the source's
divergence when a token list lacks an end marker); `internal` marks a
cross-branch result-type mismatch that never occurs. -/
inductive PErr where
  | expected (kind : Nat) (got : Option CodeToken)
  | unexpectedEnd
  | unexpectedToken (t : CodeToken)
  | fuel
  | internal
  deriving DecidableEq, Repr

/-- `SyntaxBuilder.current` (builder.py line 185). -/
def current (ts : List CodeToken) : Option CodeToken := ts.head?

/-- `SyntaxBuilder.move_forward` (builder.py lines 192-196): consume one
token, except that the end marker is never consumed. -/
def move_forward (ts : List CodeToken) : Option CodeToken × List CodeToken :=
  match ts with
  | [] => (Option.none, [])
  | t :: r => if t.kind = TokenKind.END then (some t, t :: r) else (some t, r)

/-- `SyntaxBuilder.require` (builder.py lines 198-202). -/
def require (kind : Nat) (ts : List CodeToken) :
    Except PErr (CodeToken × List CodeToken) :=
  match ts with
  | [] => .error (PErr.expected kind Option.none)
  | t :: r =>
    if t.kind = kind then .ok (t, (move_forward (t :: r)).2)
    else .error (PErr.expected kind (some t))

/-- `SyntaxBuilder.check` (builder.py lines 204-206). -/
def check (ts : List CodeToken) (kinds : List Nat) : Bool :=
  match ts with
  | [] => false
  | t :: _ => kinds.contains t.kind

/-- `SyntaxBuilder.discard_newlines` (builder.py lines 208-210). -/
def discard_newlines : List CodeToken → List CodeToken
  | [] => []
  | t :: r => if t.kind = TokenKind.NEWLINE then discard_newlines r else t :: r

/-- `SyntaxBuilder.get_precedence` (builder.py lines 504-521): the fixed
precedence table, `-1` for a non-operator. -/
def get_precedence (kind : Nat) : Int :=
  if kind = TokenKind.LOGIC_OR then 1
  else if kind = TokenKind.LOGIC_AND then 2
  else if kind = TokenKind.CMP_EQ then 3
  else if kind = TokenKind.CMP_NEQ then 3
  else if kind = TokenKind.CMP_LT then 3
  else if kind = TokenKind.CMP_LTE then 3
  else if kind = TokenKind.CMP_GT then 3
  else if kind = TokenKind.CMP_GTE then 3
  else if kind = TokenKind.BIT_OR then 4
  else if kind = TokenKind.BIT_XOR then 5
  else if kind = TokenKind.BIT_AND then 6
  else if kind = TokenKind.BIT_SHL then 7
  else if kind = TokenKind.BIT_SHR then 7
  else if kind = TokenKind.ARITH_ADD then 8
  else if kind = TokenKind.ARITH_SUB then 8
  else if kind = TokenKind.ARITH_MUL then 9
  else if kind = TokenKind.ARITH_DIV then 9
  else if kind = TokenKind.ARITH_MOD then 9
  else if kind = TokenKind.ARITH_FLOORDIV then 9
  else if kind = TokenKind.ARITH_POW then 10
  else -1

/-- Selector for the branch of `parseFn`: one tag per `SyntaxBuilder`
method, plus one per internal `while` loop (the loop's accumulated value,
when it has one, rides on the tag). -/
inductive PIn where
  | tree
  | stmt
  | func_decl
  | func_params
  | func_params_loop
  | type_spec
  | var_decl
  | cond
  | cond_elifs
  | loop
  | iter
  | ret
  | class_decl
  | imp
  | imp_items_loop
  | block
  | block_brace_loop
  | block_indent_loop
  | expr
  | prec (min_prec : Int)
  | prec_loop (min_prec : Int) (left : Expr)
  | unary
  | post
  | post_loop (e : Expr)
  | call_args
  | call_args_loop
  | atomic
  | array
  | array_items_loop

/-- The result payload of a `parseFn` branch. -/
inductive POut where
  | stmts (l : List Stmt)
  | ostmt (s : Option Stmt)
  | stmt1 (s : Stmt)
  | oexpr (e : Expr)
  | params (l : List FuncParam)
  | otype (t : TypeSpec)
  | exprs (l : List Expr)
  | vals (l : List Val)
  | oblock (b : Block)
  | branches (l : List (Expr × Block))

def POut.asStmts : POut → Except PErr (List Stmt)
  | .stmts l => .ok l
  | _ => .error PErr.internal

def POut.asOStmt : POut → Except PErr (Option Stmt)
  | .ostmt s => .ok s
  | _ => .error PErr.internal

def POut.asStmt1 : POut → Except PErr Stmt
  | .stmt1 s => .ok s
  | _ => .error PErr.internal

def POut.asExpr : POut → Except PErr Expr
  | .oexpr e => .ok e
  | _ => .error PErr.internal

def POut.asParams : POut → Except PErr (List FuncParam)
  | .params l => .ok l
  | _ => .error PErr.internal

def POut.asType : POut → Except PErr TypeSpec
  | .otype t => .ok t
  | _ => .error PErr.internal

def POut.asExprs : POut → Except PErr (List Expr)
  | .exprs l => .ok l
  | _ => .error PErr.internal

def POut.asVals : POut → Except PErr (List Val)
  | .vals l => .ok l
  | _ => .error PErr.internal

def POut.asBlock : POut → Except PErr Block
  | .oblock b => .ok b
  | _ => .error PErr.internal

def POut.asBranches : POut → Except PErr (List (Expr × Block))
  | .branches l => .ok l
  | _ => .error PErr.internal

/-- The whole of `SyntaxBuilder`'s recursive descent, one branch per method
or internal loop, selected by the `PIn` tag.  Results are paired with the
remaining token suffix.  Every recursive call spends one unit of fuel; in
the source the corresponding recursion is bounded because every step either
consumes a token or fails (except on token lists that lack an end marker,
where the source's loops diverge and this embedding reports `PErr.fuel`). -/
def parseFn : Nat → PIn → List CodeToken → Except PErr (POut × List CodeToken)
  | 0, _, _ => .error PErr.fuel
  | fuel + 1, tag, ts =>
    match tag with
    | .tree =>
      -- `build_tree` (builder.py lines 212-223)
      let ts1 := discard_newlines ts
      match current ts1 with
      | Option.none => .ok (POut.stmts [], ts1)
      | some t =>
        if t.kind = TokenKind.END then .ok (POut.stmts [], ts1)
        else
          match parseFn fuel .stmt ts1 with
          | .error e => .error e
          | .ok (o, ts2) =>
            match o.asOStmt with
            | .error e => .error e
            | .ok s =>
              match parseFn fuel .tree ts2 with
              | .error e => .error e
              | .ok (o2, ts3) =>
                match o2.asStmts with
                | .error e => .error e
                | .ok l => .ok (POut.stmts (s.toList ++ l), ts3)
    | .stmt =>
      -- `parse_stmt` (builder.py lines 225-273)
      let ts1 := discard_newlines ts
      match current ts1 with
      | Option.none => .ok (POut.ostmt Option.none, ts1)
      | some tok =>
        if tok.kind = TokenKind.END then .ok (POut.ostmt Option.none, ts1)
        else if tok.kind = TokenKind.FUNC_DEF then
          match parseFn fuel .func_decl ts1 with
          | .error e => .error e
          | .ok (o, ts2) =>
            match o.asStmt1 with
            | .error e => .error e
            | .ok s => .ok (POut.ostmt (some s), ts2)
        else if tok.kind = TokenKind.VAR_LET ∨ tok.kind = TokenKind.VAR_CONST then
          match parseFn fuel .var_decl ts1 with
          | .error e => .error e
          | .ok (o, ts2) =>
            match o.asStmt1 with
            | .error e => .error e
            | .ok s => .ok (POut.ostmt (some s), ts2)
        else if tok.kind = TokenKind.COND_IF then
          match parseFn fuel .cond ts1 with
          | .error e => .error e
          | .ok (o, ts2) =>
            match o.asStmt1 with
            | .error e => .error e
            | .ok s => .ok (POut.ostmt (some s), ts2)
        else if tok.kind = TokenKind.LOOP_WHILE then
          match parseFn fuel .loop ts1 with
          | .error e => .error e
          | .ok (o, ts2) =>
            match o.asStmt1 with
            | .error e => .error e
            | .ok s => .ok (POut.ostmt (some s), ts2)
        else if tok.kind = TokenKind.LOOP_FOR then
          match parseFn fuel .iter ts1 with
          | .error e => .error e
          | .ok (o, ts2) =>
            match o.asStmt1 with
            | .error e => .error e
            | .ok s => .ok (POut.ostmt (some s), ts2)
        else if tok.kind = TokenKind.RET then
          match parseFn fuel .ret ts1 with
          | .error e => .error e
          | .ok (o, ts2) =>
            match o.asStmt1 with
            | .error e => .error e
            | .ok s => .ok (POut.ostmt (some s), ts2)
        else if tok.kind = TokenKind.SKIP then
          let ts2 := (move_forward ts1).2
          .ok (POut.ostmt (some Stmt.SkipNode), discard_newlines ts2)
        else if tok.kind = TokenKind.HALT then
          let ts2 := (move_forward ts1).2
          .ok (POut.ostmt (some Stmt.HaltNode), discard_newlines ts2)
        else if tok.kind = TokenKind.NOOP then
          let ts2 := (move_forward ts1).2
          .ok (POut.ostmt (some Stmt.NoopNode), discard_newlines ts2)
        else if tok.kind = TokenKind.STRUCT_CLASS then
          match parseFn fuel .class_decl ts1 with
          | .error e => .error e
          | .ok (o, ts2) =>
            match o.asStmt1 with
            | .error e => .error e
            | .ok s => .ok (POut.ostmt (some s), ts2)
        else if tok.kind = TokenKind.MOD_IMPORT ∨ tok.kind = TokenKind.MOD_FROM then
          match parseFn fuel .imp ts1 with
          | .error e => .error e
          | .ok (o, ts2) =>
            match o.asStmt1 with
            | .error e => .error e
            | .ok s => .ok (POut.ostmt (some s), ts2)
        else
          match parseFn fuel .expr ts1 with
          | .error e => .error e
          | .ok (o, ts2) =>
            match o.asExpr with
            | .error e => .error e
            | .ok e =>
              if check ts2 [TokenKind.ASSIGN, TokenKind.ASSIGN_ADD,
                  TokenKind.ASSIGN_SUB, TokenKind.ASSIGN_MUL,
                  TokenKind.ASSIGN_DIV] then
                match current ts2 with
                | Option.none => .error PErr.internal
                | some op_tok =>
                  let ts3 := (move_forward ts2).2
                  match parseFn fuel .expr ts3 with
                  | .error e2 => .error e2
                  | .ok (o2, ts4) =>
                    match o2.asExpr with
                    | .error e2 => .error e2
                    | .ok v =>
                      .ok (POut.ostmt (some (Stmt.AssignNode e op_tok.text v)),
                           discard_newlines ts4)
              else .ok (POut.ostmt (some (Stmt.ExprStmt e)), discard_newlines ts2)
    | .func_decl =>
      -- `parse_func_decl` (builder.py lines 275-293)
      match require TokenKind.FUNC_DEF ts with
      | .error e => .error e
      | .ok (_, ts1) =>
        match require TokenKind.NAME ts1 with
        | .error e => .error e
        | .ok (name_tok, ts2) =>
          match require TokenKind.GROUP_LPAREN ts2 with
          | .error e => .error e
          | .ok (_, ts3) =>
            match parseFn fuel .func_params ts3 with
            | .error e => .error e
            | .ok (o, ts4) =>
              match o.asParams with
              | .error e => .error e
              | .ok params =>
                match require TokenKind.GROUP_RPAREN ts4 with
                | .error e => .error e
                | .ok (_, ts5) =>
                  let step : Except PErr (Option TypeSpec × List CodeToken) :=
                    if check ts5 [TokenKind.PUNCT_RARROW] then
                      let ts6 := (move_forward ts5).2
                      match parseFn fuel .type_spec ts6 with
                      | .error e => .error e
                      | .ok (o2, ts7) =>
                        match o2.asType with
                        | .error e => .error e
                        | .ok t => .ok (some t, ts7)
                    else .ok (Option.none, ts5)
                  match step with
                  | .error e => .error e
                  | .ok (ret_type, ts6) =>
                    match require TokenKind.PUNCT_COLON ts6 with
                    | .error e => .error e
                    | .ok (_, ts7) =>
                      let ts8 := discard_newlines ts7
                      match parseFn fuel .block ts8 with
                      | .error e => .error e
                      | .ok (ob, ts9) =>
                        match ob.asBlock with
                        | .error e => .error e
                        | .ok body =>
                          .ok (POut.stmt1
                            (Stmt.FuncDeclNode name_tok.val params ret_type body),
                            ts9)
    | .func_params =>
      -- `parse_func_params` (builder.py lines 295-321), empty case
      if check ts [TokenKind.GROUP_RPAREN] then .ok (POut.params [], ts)
      else parseFn fuel .func_params_loop ts
    | .func_params_loop =>
      -- `parse_func_params` main loop (builder.py lines 302-319)
      match require TokenKind.NAME ts with
      | .error e => .error e
      | .ok (name_tok, ts1) =>
        let stepT : Except PErr (Option TypeSpec × List CodeToken) :=
          if check ts1 [TokenKind.PUNCT_COLON] then
            let ts2 := (move_forward ts1).2
            match parseFn fuel .type_spec ts2 with
            | .error e => .error e
            | .ok (o, ts3) =>
              match o.asType with
              | .error e => .error e
              | .ok t => .ok (some t, ts3)
          else .ok (Option.none, ts1)
        match stepT with
        | .error e => .error e
        | .ok (type_spec, ts2) =>
          let stepD : Except PErr (Option Expr × List CodeToken) :=
            if check ts2 [TokenKind.ASSIGN] then
              let ts3 := (move_forward ts2).2
              match parseFn fuel .expr ts3 with
              | .error e => .error e
              | .ok (o, ts4) =>
                match o.asExpr with
                | .error e => .error e
                | .ok d => .ok (some d, ts4)
            else .ok (Option.none, ts2)
          match stepD with
          | .error e => .error e
          | .ok (dflt, ts3) =>
            let p : FuncParam := ⟨name_tok.val, type_spec, dflt⟩
            if check ts3 [TokenKind.PUNCT_COMMA] then
              let ts4 := (move_forward ts3).2
              match parseFn fuel .func_params_loop ts4 with
              | .error e => .error e
              | .ok (o, ts5) =>
                match o.asParams with
                | .error e => .error e
                | .ok rest => .ok (POut.params (p :: rest), ts5)
            else .ok (POut.params [p], ts3)
    | .type_spec =>
      -- `parse_type_spec` (builder.py lines 323-326)
      match require TokenKind.NAME ts with
      | .error e => .error e
      | .ok (name_tok, ts1) => .ok (POut.otype ⟨name_tok.val, false⟩, ts1)
    | .var_decl =>
      -- `parse_var_decl` (builder.py lines 328-346)
      let is_const : Bool :=
        match current ts with
        | some t => t.kind == TokenKind.VAR_CONST
        | Option.none => false
      let ts1 := (move_forward ts).2
      match require TokenKind.NAME ts1 with
      | .error e => .error e
      | .ok (name_tok, ts2) =>
        let stepT : Except PErr (Option TypeSpec × List CodeToken) :=
          if check ts2 [TokenKind.PUNCT_COLON] then
            let ts3 := (move_forward ts2).2
            match parseFn fuel .type_spec ts3 with
            | .error e => .error e
            | .ok (o, ts4) =>
              match o.asType with
              | .error e => .error e
              | .ok t => .ok (some t, ts4)
          else .ok (Option.none, ts2)
        match stepT with
        | .error e => .error e
        | .ok (type_spec, ts3) =>
          let stepI : Except PErr (Option Expr × List CodeToken) :=
            if check ts3 [TokenKind.ASSIGN] then
              let ts4 := (move_forward ts3).2
              match parseFn fuel .expr ts4 with
              | .error e => .error e
              | .ok (o, ts5) =>
                match o.asExpr with
                | .error e => .error e
                | .ok v => .ok (some v, ts5)
            else .ok (Option.none, ts3)
          match stepI with
          | .error e => .error e
          | .ok (init_val, ts4) =>
            .ok (POut.stmt1
              (Stmt.VarDeclNode name_tok.val type_spec init_val is_const),
              discard_newlines ts4)
    | .cond =>
      -- `parse_cond` (builder.py lines 348-373)
      match require TokenKind.COND_IF ts with
      | .error e => .error e
      | .ok (_, ts1) =>
        match parseFn fuel .expr ts1 with
        | .error e => .error e
        | .ok (o1, ts2) =>
          match o1.asExpr with
          | .error e => .error e
          | .ok first_cond =>
            match require TokenKind.PUNCT_COLON ts2 with
            | .error e => .error e
            | .ok (_, ts3) =>
              let ts4 := discard_newlines ts3
              match parseFn fuel .block ts4 with
              | .error e => .error e
              | .ok (ob, ts5) =>
                match ob.asBlock with
                | .error e => .error e
                | .ok first_body =>
                  match parseFn fuel .cond_elifs ts5 with
                  | .error e => .error e
                  | .ok (oe, ts6) =>
                    match oe.asBranches with
                    | .error e => .error e
                    | .ok elifs =>
                      let stepF : Except PErr (Option Block × List CodeToken) :=
                        if check ts6 [TokenKind.COND_ELSE] then
                          let tsA := (move_forward ts6).2
                          match require TokenKind.PUNCT_COLON tsA with
                          | .error e => .error e
                          | .ok (_, tsB) =>
                            let tsC := discard_newlines tsB
                            match parseFn fuel .block tsC with
                            | .error e => .error e
                            | .ok (obe, tsD) =>
                              match obe.asBlock with
                              | .error e => .error e
                              | .ok fb => .ok (some fb, tsD)
                        else .ok (Option.none, ts6)
                      match stepF with
                      | .error e => .error e
                      | .ok (fallback, ts7) =>
                        .ok (POut.stmt1
                          (Stmt.CondNode ((first_cond, first_body) :: elifs)
                            fallback), ts7)
    | .cond_elifs =>
      -- the `elif` loop of `parse_cond` (builder.py lines 358-364)
      if check ts [TokenKind.COND_ELIF] then
        let ts1 := (move_forward ts).2
        match parseFn fuel .expr ts1 with
        | .error e => .error e
        | .ok (o1, ts2) =>
          match o1.asExpr with
          | .error e => .error e
          | .ok c =>
            match require TokenKind.PUNCT_COLON ts2 with
            | .error e => .error e
            | .ok (_, ts3) =>
              let ts4 := discard_newlines ts3
              match parseFn fuel .block ts4 with
              | .error e => .error e
              | .ok (ob, ts5) =>
                match ob.asBlock with
                | .error e => .error e
                | .ok b =>
                  match parseFn fuel .cond_elifs ts5 with
                  | .error e => .error e
                  | .ok (o2, ts6) =>
                    match o2.asBranches with
                    | .error e => .error e
                    | .ok rest => .ok (POut.branches ((c, b) :: rest), ts6)
      else .ok (POut.branches [], ts)
    | .loop =>
      -- `parse_loop` (builder.py lines 375-382)
      match require TokenKind.LOOP_WHILE ts with
      | .error e => .error e
      | .ok (_, ts1) =>
        match parseFn fuel .expr ts1 with
        | .error e => .error e
        | .ok (o1, ts2) =>
          match o1.asExpr with
          | .error e => .error e
          | .ok c =>
            match require TokenKind.PUNCT_COLON ts2 with
            | .error e => .error e
            | .ok (_, ts3) =>
              let ts4 := discard_newlines ts3
              match parseFn fuel .block ts4 with
              | .error e => .error e
              | .ok (ob, ts5) =>
                match ob.asBlock with
                | .error e => .error e
                | .ok body => .ok (POut.stmt1 (Stmt.LoopNode c body), ts5)
    | .iter =>
      -- `parse_iter` (builder.py lines 384-393)
      match require TokenKind.LOOP_FOR ts with
      | .error e => .error e
      | .ok (_, ts1) =>
        match require TokenKind.NAME ts1 with
        | .error e => .error e
        | .ok (var_tok, ts2) =>
          match require TokenKind.ITER_IN ts2 with
          | .error e => .error e
          | .ok (_, ts3) =>
            match parseFn fuel .expr ts3 with
            | .error e => .error e
            | .ok (o1, ts4) =>
              match o1.asExpr with
              | .error e => .error e
              | .ok iterable =>
                match require TokenKind.PUNCT_COLON ts4 with
                | .error e => .error e
                | .ok (_, ts5) =>
                  let ts6 := discard_newlines ts5
                  match parseFn fuel .block ts6 with
                  | .error e => .error e
                  | .ok (ob, ts7) =>
                    match ob.asBlock with
                    | .error e => .error e
                    | .ok body =>
                      .ok (POut.stmt1 (Stmt.IterNode var_tok.val iterable body),
                           ts7)
    | .ret =>
      -- `parse_ret` (builder.py lines 395-404)
      match require TokenKind.RET ts with
      | .error e => .error e
      | .ok (_, ts1) =>
        let stepV : Except PErr (Option Expr × List CodeToken) :=
          if !(check ts1 [TokenKind.NEWLINE, TokenKind.END]) then
            match parseFn fuel .expr ts1 with
            | .error e => .error e
            | .ok (o, ts2) =>
              match o.asExpr with
              | .error e => .error e
              | .ok v => .ok (some v, ts2)
          else .ok (Option.none, ts1)
        match stepV with
        | .error e => .error e
        | .ok (val, ts2) =>
          .ok (POut.stmt1 (Stmt.RetNode val), discard_newlines ts2)
    | .class_decl =>
      -- `parse_class` (builder.py lines 406-413)
      match require TokenKind.STRUCT_CLASS ts with
      | .error e => .error e
      | .ok (_, ts1) =>
        match require TokenKind.NAME ts1 with
        | .error e => .error e
        | .ok (name_tok, ts2) =>
          match require TokenKind.PUNCT_COLON ts2 with
          | .error e => .error e
          | .ok (_, ts3) =>
            let ts4 := discard_newlines ts3
            match parseFn fuel .block ts4 with
            | .error e => .error e
            | .ok (ob, ts5) =>
              match ob.asBlock with
              | .error e => .error e
              | .ok body =>
                .ok (POut.stmt1 (Stmt.ClassDeclNode name_tok.val body), ts5)
    | .imp =>
      -- `parse_import` (builder.py lines 415-449)
      if check ts [TokenKind.MOD_FROM] then
        let ts1 := (move_forward ts).2
        match require TokenKind.NAME ts1 with
        | .error e => .error e
        | .ok (mod_tok, ts2) =>
          match require TokenKind.MOD_IMPORT ts2 with
          | .error e => .error e
          | .ok (_, ts3) =>
            match parseFn fuel .imp_items_loop ts3 with
            | .error e => .error e
            | .ok (o, ts4) =>
              match o.asVals with
              | .error e => .error e
              | .ok items =>
                let stepA : Except PErr (Option Val × List CodeToken) :=
                  if check ts4 [TokenKind.MOD_AS] then
                    let ts5 := (move_forward ts4).2
                    match require TokenKind.NAME ts5 with
                    | .error e => .error e
                    | .ok (alias_tok, ts6) => .ok (some alias_tok.val, ts6)
                  else .ok (Option.none, ts4)
                match stepA with
                | .error e => .error e
                | .ok (alias_name, ts5) =>
                  .ok (POut.stmt1
                    (Stmt.ModuleImportNode mod_tok.val (some items) alias_name),
                    discard_newlines ts5)
      else
        match require TokenKind.MOD_IMPORT ts with
        | .error e => .error e
        | .ok (_, ts1) =>
          match require TokenKind.NAME ts1 with
          | .error e => .error e
          | .ok (mod_tok, ts2) =>
            let stepA : Except PErr (Option Val × List CodeToken) :=
              if check ts2 [TokenKind.MOD_AS] then
                let ts3 := (move_forward ts2).2
                match require TokenKind.NAME ts3 with
                | .error e => .error e
                | .ok (alias_tok, ts4) => .ok (some alias_tok.val, ts4)
              else .ok (Option.none, ts2)
            match stepA with
            | .error e => .error e
            | .ok (alias_name, ts3) =>
              .ok (POut.stmt1
                (Stmt.ModuleImportNode mod_tok.val Option.none alias_name),
                discard_newlines ts3)
    | .imp_items_loop =>
      -- the item loop of `parse_import` (builder.py lines 422-428)
      match require TokenKind.NAME ts with
      | .error e => .error e
      | .ok (item_tok, ts1) =>
        if check ts1 [TokenKind.PUNCT_COMMA] then
          let ts2 := (move_forward ts1).2
          match parseFn fuel .imp_items_loop ts2 with
          | .error e => .error e
          | .ok (o, ts3) =>
            match o.asVals with
            | .error e => .error e
            | .ok rest => .ok (POut.vals (item_tok.val :: rest), ts3)
        else .ok (POut.vals [item_tok.val], ts1)
    | .block =>
      -- `parse_block` (builder.py lines 451-479)
      if check ts [TokenKind.GROUP_LBRACE] then
        let ts1 := discard_newlines (move_forward ts).2
        match parseFn fuel .block_brace_loop ts1 with
        | .error e => .error e
        | .ok (o, ts2) =>
          match o.asStmts with
          | .error e => .error e
          | .ok l =>
            match require TokenKind.GROUP_RBRACE ts2 with
            | .error e => .error e
            | .ok (_, ts3) =>
              .ok (POut.oblock (Block.BlockNode l), discard_newlines ts3)
      else
        match require TokenKind.INDENT ts with
        | .error e => .error e
        | .ok (_, ts1) =>
          match parseFn fuel .block_indent_loop ts1 with
          | .error e => .error e
          | .ok (o, ts2) =>
            match o.asStmts with
            | .error e => .error e
            | .ok l =>
              let ts3 :=
                if check ts2 [TokenKind.DEDENT] then (move_forward ts2).2
                else ts2
              .ok (POut.oblock (Block.BlockNode l), ts3)
    | .block_brace_loop =>
      -- braced-statement loop of `parse_block` (builder.py lines 459-463)
      if check ts [TokenKind.GROUP_RBRACE, TokenKind.END] then
        .ok (POut.stmts [], ts)
      else
        match parseFn fuel .stmt ts with
        | .error e => .error e
        | .ok (o, ts1) =>
          match o.asOStmt with
          | .error e => .error e
          | .ok s =>
            let ts2 := discard_newlines ts1
            match parseFn fuel .block_brace_loop ts2 with
            | .error e => .error e
            | .ok (o2, ts3) =>
              match o2.asStmts with
              | .error e => .error e
              | .ok l => .ok (POut.stmts (s.toList ++ l), ts3)
    | .block_indent_loop =>
      -- indented-statement loop of `parse_block` (builder.py lines 470-474)
      if check ts [TokenKind.DEDENT, TokenKind.END] then
        .ok (POut.stmts [], ts)
      else
        match parseFn fuel .stmt ts with
        | .error e => .error e
        | .ok (o, ts1) =>
          match o.asOStmt with
          | .error e => .error e
          | .ok s =>
            let ts2 := discard_newlines ts1
            match parseFn fuel .block_indent_loop ts2 with
            | .error e => .error e
            | .ok (o2, ts3) =>
              match o2.asStmts with
              | .error e => .error e
              | .ok l => .ok (POut.stmts (s.toList ++ l), ts3)
    | .expr =>
      -- `parse_expr` (builder.py lines 481-483)
      parseFn fuel (.prec 0) ts
    | .prec min_prec =>
      -- `parse_precedence` (builder.py lines 485-502), left-operand part
      match parseFn fuel .unary ts with
      | .error e => .error e
      | .ok (o, ts1) =>
        match o.asExpr with
        | .error e => .error e
        | .ok left => parseFn fuel (.prec_loop min_prec left) ts1
    | .prec_loop min_prec left =>
      -- the climbing loop of `parse_precedence` (builder.py lines 489-501)
      match current ts with
      | Option.none => .ok (POut.oexpr left, ts)
      | some tok =>
        let p := get_precedence tok.kind
        if p < min_prec then .ok (POut.oexpr left, ts)
        else
          let ts1 := (move_forward ts).2
          match parseFn fuel (.prec (p + 1)) ts1 with
          | .error e => .error e
          | .ok (o, ts2) =>
            match o.asExpr with
            | .error e => .error e
            | .ok right =>
              parseFn fuel
                (.prec_loop min_prec (Expr.BinOpNode tok.text left right)) ts2
    | .unary =>
      -- `parse_unary` (builder.py lines 523-531)
      if check ts [TokenKind.LOGIC_NOT, TokenKind.ARITH_SUB,
          TokenKind.ARITH_ADD, TokenKind.BIT_NOT] then
        match current ts with
        | Option.none => .error PErr.internal
        | some op_tok =>
          let ts1 := (move_forward ts).2
          match parseFn fuel .unary ts1 with
          | .error e => .error e
          | .ok (o, ts2) =>
            match o.asExpr with
            | .error e => .error e
            | .ok operand =>
              .ok (POut.oexpr (Expr.UnOpNode op_tok.text operand), ts2)
      else parseFn fuel .post ts
    | .post =>
      -- `parse_postfix` (builder.py lines 533-555), atomic part
      match parseFn fuel .atomic ts with
      | .error e => .error e
      | .ok (o, ts1) =>
        match o.asExpr with
        | .error e => .error e
        | .ok e => parseFn fuel (.post_loop e) ts1
    | .post_loop e =>
      -- the postfix chaining loop of `parse_postfix` (builder.py lines 537-553)
      if check ts [TokenKind.GROUP_LPAREN] then
        let ts1 := (move_forward ts).2
        match parseFn fuel .call_args ts1 with
        | .error er => .error er
        | .ok (o, ts2) =>
          match o.asExprs with
          | .error er => .error er
          | .ok args =>
            match require TokenKind.GROUP_RPAREN ts2 with
            | .error er => .error er
            | .ok (_, ts3) =>
              parseFn fuel (.post_loop (Expr.InvokeNode e args)) ts3
      else if check ts [TokenKind.GROUP_LSQUARE] then
        let ts1 := (move_forward ts).2
        match parseFn fuel .expr ts1 with
        | .error er => .error er
        | .ok (o, ts2) =>
          match o.asExpr with
          | .error er => .error er
          | .ok idx =>
            match require TokenKind.GROUP_RSQUARE ts2 with
            | .error er => .error er
            | .ok (_, ts3) =>
              parseFn fuel (.post_loop (Expr.SubscriptNode e idx)) ts3
      else if check ts [TokenKind.PUNCT_DOT] then
        let ts1 := (move_forward ts).2
        match require TokenKind.NAME ts1 with
        | .error er => .error er
        | .ok (attr_tok, ts2) =>
          parseFn fuel (.post_loop (Expr.AttrNode e attr_tok.val)) ts2
      else .ok (POut.oexpr e, ts)
    | .call_args =>
      -- `parse_call_args` (builder.py lines 557-570), empty case
      if check ts [TokenKind.GROUP_RPAREN] then .ok (POut.exprs [], ts)
      else parseFn fuel .call_args_loop ts
    | .call_args_loop =>
      -- `parse_call_args` main loop (builder.py lines 564-568)
      match parseFn fuel .expr ts with
      | .error e => .error e
      | .ok (o, ts1) =>
        match o.asExpr with
        | .error e => .error e
        | .ok a =>
          if check ts1 [TokenKind.PUNCT_COMMA] then
            let ts2 := (move_forward ts1).2
            match parseFn fuel .call_args_loop ts2 with
            | .error e => .error e
            | .ok (o2, ts3) =>
              match o2.asExprs with
              | .error e => .error e
              | .ok rest => .ok (POut.exprs (a :: rest), ts3)
          else .ok (POut.exprs [a], ts1)
    | .atomic =>
      -- `parse_atomic` (builder.py lines 572-616)
      match current ts with
      | Option.none => .error PErr.unexpectedEnd
      | some tok =>
        if tok.kind = TokenKind.NUM_INT then
          .ok (POut.oexpr (Expr.NumNode tok.val false), (move_forward ts).2)
        else if tok.kind = TokenKind.NUM_FLOAT then
          .ok (POut.oexpr (Expr.NumNode tok.val true), (move_forward ts).2)
        else if tok.kind = TokenKind.TEXT then
          .ok (POut.oexpr (Expr.TextNode tok.val), (move_forward ts).2)
        else if tok.kind = TokenKind.BOOL_T then
          .ok (POut.oexpr (Expr.BoolNode true), (move_forward ts).2)
        else if tok.kind = TokenKind.BOOL_F then
          .ok (POut.oexpr (Expr.BoolNode false), (move_forward ts).2)
        else if tok.kind = TokenKind.NULL then
          .ok (POut.oexpr Expr.NullNode, (move_forward ts).2)
        else if tok.kind = TokenKind.NAME then
          .ok (POut.oexpr (Expr.VarRefNode tok.val), (move_forward ts).2)
        else if tok.kind = TokenKind.GROUP_LPAREN then
          let ts1 := (move_forward ts).2
          match parseFn fuel .expr ts1 with
          | .error e => .error e
          | .ok (o, ts2) =>
            match o.asExpr with
            | .error e => .error e
            | .ok e =>
              match require TokenKind.GROUP_RPAREN ts2 with
              | .error er => .error er
              | .ok (_, ts3) => .ok (POut.oexpr e, ts3)
        else if tok.kind = TokenKind.GROUP_LSQUARE then
          parseFn fuel .array ts
        else .error (PErr.unexpectedToken tok)
    | .array =>
      -- `parse_array` (builder.py lines 618-631)
      match require TokenKind.GROUP_LSQUARE ts with
      | .error e => .error e
      | .ok (_, ts1) =>
        let stepI : Except PErr (List Expr × List CodeToken) :=
          if !(check ts1 [TokenKind.GROUP_RSQUARE]) then
            match parseFn fuel .array_items_loop ts1 with
            | .error e => .error e
            | .ok (o, ts2) =>
              match o.asExprs with
              | .error e => .error e
              | .ok items => .ok (items, ts2)
          else .ok ([], ts1)
        match stepI with
        | .error e => .error e
        | .ok (items, ts2) =>
          match require TokenKind.GROUP_RSQUARE ts2 with
          | .error e => .error e
          | .ok (_, ts3) => .ok (POut.oexpr (Expr.ArrayNode items), ts3)
    | .array_items_loop =>
      -- the element loop of `parse_array` (builder.py lines 624-628)
      match parseFn fuel .expr ts with
      | .error e => .error e
      | .ok (o, ts1) =>
        match o.asExpr with
        | .error e => .error e
        | .ok a =>
          if check ts1 [TokenKind.PUNCT_COMMA] then
            let ts2 := (move_forward ts1).2
            match parseFn fuel .array_items_loop ts2 with
            | .error e => .error e
            | .ok (o2, ts3) =>
              match o2.asExprs with
              | .error e => .error e
              | .ok rest => .ok (POut.exprs (a :: rest), ts3)
          else .ok (POut.exprs [a], ts1)

/-- `SyntaxBuilder.build_tree` entry point: parse statements up to the end
marker and wrap them in a `ProgramNode`. -/
def build_tree (fuel : Nat) (ts : List CodeToken) : Except PErr ProgramNode :=
  match parseFn fuel .tree ts with
  | .error e => .error e
  | .ok (o, _) =>
    match o.asStmts with
    | .error e => .error e
    | .ok l => .ok ⟨l⟩

/-- Canonical parser fuel for a token list: generous, since each consumed
token costs a bounded number of nested calls. -/
def parse_fuel (ts : List CodeToken) : Nat := 32 * ts.length + 64

/-- A front-end failure: lexical or syntactic. -/
inductive FrontErr where
  | lex (e : ScanErr)
  | parse (e : PErr)
  deriving DecidableEq, Repr

/-- The full pipeline on one source unit: scan, then build the tree. -/
def scan_and_parse (s : String) : Except FrontErr ProgramNode :=
  match scan s with
  | .error e => .error (FrontErr.lex e)
  | .ok ts =>
    match build_tree (parse_fuel ts) ts with
    | .error e => .error (FrontErr.parse e)
    | .ok p => .ok p

/-! ## Helper lemmas -/

/-- A successful association-list lookup returns one of the stored values. -/
theorem lookup_val_mem {α : Type} [BEq α] :
    ∀ (l : List (α × Nat)) (s : α) (k : Nat),
      l.lookup s = some k → k ∈ l.map Prod.snd := by
  intro l
  induction l with
  | nil => intro s k h; simp [List.lookup] at h
  | cons p t ih =>
    intro s k h
    rw [List.lookup] at h
    by_cases hb : (s == p.1) = true
    · simp [hb] at h; simp [← h]
    · simp [hb] at h
      exact List.mem_cons_of_mem _ (ih s k h)

theorem reserved_vals_lt : ∀ k ∈ RESERVED_WORDS.map Prod.snd, k < 62 := by decide

theorem two_char_vals_lt : ∀ k ∈ two_char_ops.map Prod.snd, k < 62 := by decide

theorem single_vals_lt : ∀ k ∈ single_ops.map Prod.snd, k < 62 := by decide

/-- The kind chosen for an identifier token is never a structural marker. -/
theorem reserved_kind_lt (s : String) :
    (RESERVED_WORDS.lookup s).getD TokenKind.NAME < 62 := by
  cases h : RESERVED_WORDS.lookup s with
  | none => simp [TokenKind.NAME]
  | some k => simpa using reserved_vals_lt k (lookup_val_mem _ s k h)

set_option maxHeartbeats 2000000 in
/-- Every positive entry of the precedence table: the nineteen binary
operator kinds. -/
theorem get_precedence_pos_cases (k : Nat) (h : 0 ≤ get_precedence k) :
    k = TokenKind.LOGIC_OR ∨ k = TokenKind.LOGIC_AND ∨ k = TokenKind.CMP_EQ ∨
    k = TokenKind.CMP_NEQ ∨ k = TokenKind.CMP_LT ∨ k = TokenKind.CMP_LTE ∨
    k = TokenKind.CMP_GT ∨ k = TokenKind.CMP_GTE ∨ k = TokenKind.BIT_OR ∨
    k = TokenKind.BIT_XOR ∨ k = TokenKind.BIT_AND ∨ k = TokenKind.BIT_SHL ∨
    k = TokenKind.BIT_SHR ∨ k = TokenKind.ARITH_ADD ∨ k = TokenKind.ARITH_SUB ∨
    k = TokenKind.ARITH_MUL ∨ k = TokenKind.ARITH_DIV ∨ k = TokenKind.ARITH_MOD ∨
    k = TokenKind.ARITH_FLOORDIV ∨ k = TokenKind.ARITH_POW := by
  unfold get_precedence at h
  by_cases h1 : k = TokenKind.LOGIC_OR
  · tauto
  rw [if_neg h1] at h
  by_cases h2 : k = TokenKind.LOGIC_AND
  · tauto
  rw [if_neg h2] at h
  by_cases h3 : k = TokenKind.CMP_EQ
  · tauto
  rw [if_neg h3] at h
  by_cases h4 : k = TokenKind.CMP_NEQ
  · tauto
  rw [if_neg h4] at h
  by_cases h5 : k = TokenKind.CMP_LT
  · tauto
  rw [if_neg h5] at h
  by_cases h6 : k = TokenKind.CMP_LTE
  · tauto
  rw [if_neg h6] at h
  by_cases h7 : k = TokenKind.CMP_GT
  · tauto
  rw [if_neg h7] at h
  by_cases h8 : k = TokenKind.CMP_GTE
  · tauto
  rw [if_neg h8] at h
  by_cases h9 : k = TokenKind.BIT_OR
  · tauto
  rw [if_neg h9] at h
  by_cases h10 : k = TokenKind.BIT_XOR
  · tauto
  rw [if_neg h10] at h
  by_cases h11 : k = TokenKind.BIT_AND
  · tauto
  rw [if_neg h11] at h
  by_cases h12 : k = TokenKind.BIT_SHL
  · tauto
  rw [if_neg h12] at h
  by_cases h13 : k = TokenKind.BIT_SHR
  · tauto
  rw [if_neg h13] at h
  by_cases h14 : k = TokenKind.ARITH_ADD
  · tauto
  rw [if_neg h14] at h
  by_cases h15 : k = TokenKind.ARITH_SUB
  · tauto
  rw [if_neg h15] at h
  by_cases h16 : k = TokenKind.ARITH_MUL
  · tauto
  rw [if_neg h16] at h
  by_cases h17 : k = TokenKind.ARITH_DIV
  · tauto
  rw [if_neg h17] at h
  by_cases h18 : k = TokenKind.ARITH_MOD
  · tauto
  rw [if_neg h18] at h
  by_cases h19 : k = TokenKind.ARITH_FLOORDIV
  · tauto
  rw [if_neg h19] at h
  by_cases h20 : k = TokenKind.ARITH_POW
  · tauto
  rw [if_neg h20] at h
  exact absurd h (by decide)

/-! ## C1 — unterminated strings and scanner totality

The permissive truncation does hold when end of input is reached in the
plain body of the string, but the code crashes with a Python `TypeError`
(`buffer += escape_map.get(None, None)` concatenates `None`) when end of
input comes immediately after a backslash, where the claim asserts a
string token is still produced. -/

/-- C1: scanning `"abc` (no closing quote) silently yields a string token,
but scanning `"\` (end of input immediately after the escape backslash)
crashes with a `TypeError` rather than producing a token — contradicting
the claim's "does not fail ... including immediately after a backslash". -/
theorem scan_backslash_eof_type_error :
    scan "\"abc" =
      .ok [⟨TokenKind.TEXT, "abc", Val.str "abc", 1, 1⟩,
           ⟨TokenKind.END, "", Val.none, 1, 5⟩] ∧
    scan "\"\\" = .error ScanErr.typeErrorEscape := by
  exact ⟨rfl, rfl⟩

/-! ## C3 — uniform left associativity, including power -/

/-- C3: both concrete spec examples, and, at the token level, every binary
operator of the precedence table is parsed left-associatively when it
appears twice: the right-operand recursion requests precedence one higher,
so `a op b op c` becomes `op(op(a,b),c)`.  This includes `**`. -/
theorem binop_left_assoc :
    scan_and_parse "2 - 3 - 4" =
      .ok ⟨[Stmt.ExprStmt (Expr.BinOpNode "-"
        (Expr.BinOpNode "-" (Expr.NumNode (Val.int 2) false)
          (Expr.NumNode (Val.int 3) false))
        (Expr.NumNode (Val.int 4) false))]⟩ ∧
    scan_and_parse "2 ** 3 ** 4" =
      .ok ⟨[Stmt.ExprStmt (Expr.BinOpNode "**"
        (Expr.BinOpNode "**" (Expr.NumNode (Val.int 2) false)
          (Expr.NumNode (Val.int 3) false))
        (Expr.NumNode (Val.int 4) false))]⟩ ∧
    ∀ (k : Nat) (tx : String) (v : Val) (a b c : Int),
      0 ≤ get_precedence k →
      parseFn 32 PIn.expr
        [⟨TokenKind.NUM_INT, "", Val.int a, 1, 1⟩, ⟨k, tx, v, 1, 2⟩,
         ⟨TokenKind.NUM_INT, "", Val.int b, 1, 3⟩, ⟨k, tx, v, 1, 4⟩,
         ⟨TokenKind.NUM_INT, "", Val.int c, 1, 5⟩,
         ⟨TokenKind.END, "", Val.none, 1, 6⟩] =
      .ok (POut.oexpr (Expr.BinOpNode tx
            (Expr.BinOpNode tx (Expr.NumNode (Val.int a) false)
              (Expr.NumNode (Val.int b) false))
            (Expr.NumNode (Val.int c) false)),
           [⟨TokenKind.END, "", Val.none, 1, 6⟩]) := by
  refine ⟨rfl, rfl, ?_⟩
  intro k tx v a b c h
  rcases get_precedence_pos_cases k h with
    rfl|rfl|rfl|rfl|rfl|rfl|rfl|rfl|rfl|rfl|rfl|rfl|rfl|rfl|rfl|rfl|rfl|rfl|rfl|rfl <;>
    rfl

/-- Witness for C3 at `2 - 3 - 4` in token form. -/
theorem binop_left_assoc_witness :
    parseFn 32 PIn.expr
      [⟨TokenKind.NUM_INT, "", Val.int 2, 1, 1⟩,
       ⟨TokenKind.ARITH_SUB, "-", Val.str "-", 1, 2⟩,
       ⟨TokenKind.NUM_INT, "", Val.int 3, 1, 3⟩,
       ⟨TokenKind.ARITH_SUB, "-", Val.str "-", 1, 4⟩,
       ⟨TokenKind.NUM_INT, "", Val.int 4, 1, 5⟩,
       ⟨TokenKind.END, "", Val.none, 1, 6⟩] =
    .ok (POut.oexpr (Expr.BinOpNode "-"
          (Expr.BinOpNode "-" (Expr.NumNode (Val.int 2) false)
            (Expr.NumNode (Val.int 3) false))
          (Expr.NumNode (Val.int 4) false)),
         [⟨TokenKind.END, "", Val.none, 1, 6⟩]) :=
  binop_left_assoc.2.2 TokenKind.ARITH_SUB "-" (Val.str "-") 2 3 4 (by decide)

/-! ## C4 — brace and indentation blocks build the same tree

In the source every node's `location` is the constant `(0, 0)` (it is
assigned only in `TreeNode.__init__` and never updated), so equality of the
embedded trees is exactly equality "up to position metadata". -/

/-- C4: `"if true: { x = 1 }"` and `"if true:\n    x = 1\n"` scan-and-parse
to the same program: one conditional with a single
(`true`, block-of-one-assignment) branch and no fallback. -/
theorem block_forms_equal_ast :
    scan_and_parse "if true: { x = 1 }" = scan_and_parse "if true:\n    x = 1\n" ∧
    scan_and_parse "if true: { x = 1 }" =
      .ok ⟨[Stmt.CondNode
        [(Expr.BoolNode true,
          Block.BlockNode [Stmt.AssignNode (Expr.VarRefNode (Val.str "x")) "="
            (Expr.NumNode (Val.int 1) false)])] Option.none]⟩ := by
  exact ⟨rfl, rfl⟩

/-! ## C5 — NEWLINE tokens versus physical line breaks (counterexample)

The `'\n'` that terminates a blank (or comment-only) line is consumed by
the line-start skip (scanner.py lines 218-224) without emitting a NEWLINE
token, so the claimed equality with the count of `'\n'` characters outside
string literals fails already on the one-character source `"\n"`. -/

/-- C5 counterexample: the source `"\n"` has one `'\n'` (no string
literals at all), yet its scan succeeds with zero NEWLINE tokens. -/
theorem newline_count_counterexample :
    scan "\n" = .ok [⟨TokenKind.END, "", Val.none, 2, 1⟩] ∧
    List.countP (fun t => t.kind == TokenKind.NEWLINE)
      [(⟨TokenKind.END, "", Val.none, 2, 1⟩ : CodeToken)] = 0 ∧
    List.countP (fun c => c == '\n') "\n".data = 1 := by
  exact ⟨rfl, rfl, rfl⟩

/-! ## C6 — `!` is not in the operator tables (counterexample + amendment)

The scanner's one-character table has no entry for `'!'` (only `"!="` in
the two-character table), so a lone `!` is a lexical error and cannot act
as a prefix operator.  The logical-not prefix is spelled `not`. -/

/-- C6 counterexample: `"!x"` raises the lexical unknown-character error at
the `!`, instead of parsing as a unary logical-not. -/
theorem bang_not_recognized : scan "!x" = .error (ScanErr.badChar '!' 1 1) := by
  rfl

/-- C6 amended: the logical-not prefix operator is spelled `not`; it
parses to a unary node over its operand, stacks, and binds tighter than
every binary operator of the precedence table. -/
theorem not_prefix_parses :
    scan_and_parse "not x" =
      .ok ⟨[Stmt.ExprStmt (Expr.UnOpNode "not" (Expr.VarRefNode (Val.str "x")))]⟩ ∧
    scan_and_parse "not not x" =
      .ok ⟨[Stmt.ExprStmt (Expr.UnOpNode "not"
        (Expr.UnOpNode "not" (Expr.VarRefNode (Val.str "x"))))]⟩ ∧
    ∀ (k : Nat) (tx : String) (v : Val),
      0 ≤ get_precedence k →
      parseFn 32 PIn.expr
        [⟨TokenKind.LOGIC_NOT, "not", Val.str "not", 1, 1⟩,
         ⟨TokenKind.NAME, "x", Val.str "x", 1, 2⟩, ⟨k, tx, v, 1, 3⟩,
         ⟨TokenKind.NAME, "y", Val.str "y", 1, 4⟩,
         ⟨TokenKind.END, "", Val.none, 1, 5⟩] =
      .ok (POut.oexpr (Expr.BinOpNode tx
            (Expr.UnOpNode "not" (Expr.VarRefNode (Val.str "x")))
            (Expr.VarRefNode (Val.str "y"))),
           [⟨TokenKind.END, "", Val.none, 1, 5⟩]) := by
  refine ⟨rfl, rfl, ?_⟩
  intro k tx v h
  rcases get_precedence_pos_cases k h with
    rfl|rfl|rfl|rfl|rfl|rfl|rfl|rfl|rfl|rfl|rfl|rfl|rfl|rfl|rfl|rfl|rfl|rfl|rfl|rfl <;>
    rfl

/-- Witness for C6 amended, with `and` as the binary operator. -/
theorem not_prefix_parses_witness :
    parseFn 32 PIn.expr
      [⟨TokenKind.LOGIC_NOT, "not", Val.str "not", 1, 1⟩,
       ⟨TokenKind.NAME, "x", Val.str "x", 1, 2⟩,
       ⟨TokenKind.LOGIC_AND, "and", Val.str "and", 1, 3⟩,
       ⟨TokenKind.NAME, "y", Val.str "y", 1, 4⟩,
       ⟨TokenKind.END, "", Val.none, 1, 5⟩] =
    .ok (POut.oexpr (Expr.BinOpNode "and"
          (Expr.UnOpNode "not" (Expr.VarRefNode (Val.str "x")))
          (Expr.VarRefNode (Val.str "y"))),
         [⟨TokenKind.END, "", Val.none, 1, 5⟩]) :=
  not_prefix_parses.2.2 TokenKind.LOGIC_AND "and" (Val.str "and") (by decide)

/-! ## C7 — ragged dedents pop to the first level ≤ width, silently -/

/-- The dedent loop pops exactly the strict prefix of levels above the new
width; with a zero bottom level it never runs into the `len > 1` guard. -/
theorem dedent_pops_drop (levels : List Nat) (spaces row : Nat)
    (h : levels.getLast? = some 0) :
    dedent_pops levels spaces row =
      (levels.dropWhile (fun l => decide (spaces < l)),
       List.replicate
         (levels.length - (levels.dropWhile (fun l => decide (spaces < l))).length)
         ⟨TokenKind.DEDENT, "", Val.none, row, 1⟩) := by
  induction levels with
  | nil => simp at h
  | cons l tail ih =>
    cases tail with
    | nil =>
      have hl : l = 0 := by simpa using h
      subst hl
      simp [dedent_pops, List.dropWhile]
    | cons l2 t2 =>
      have h2 : (l2 :: t2).getLast? = some 0 := by
        simpa [List.getLast?_cons_cons] using h
      by_cases hl : l > spaces
      · have hlen : ((l2 :: t2).dropWhile (fun l => decide (spaces < l))).length ≤
            (l2 :: t2).length :=
          (List.dropWhile_suffix _).length_le
        have hdw : (l :: l2 :: t2).dropWhile (fun l => decide (spaces < l)) =
            (l2 :: t2).dropWhile (fun l => decide (spaces < l)) :=
          List.dropWhile_cons_of_pos (by simpa using hl)
        have harith :
            (l :: l2 :: t2).length -
              ((l2 :: t2).dropWhile (fun l => decide (spaces < l))).length =
            ((l2 :: t2).length -
              ((l2 :: t2).dropWhile (fun l => decide (spaces < l))).length) + 1 := by
          simp only [List.length_cons] at hlen ⊢
          omega
        rw [hdw, harith, List.replicate_succ]
        simp only [dedent_pops, if_pos hl, ih h2]
      · have hdw : (l :: l2 :: t2).dropWhile (fun l => decide (spaces < l)) =
            l :: l2 :: t2 :=
          List.dropWhile_cons_of_neg (by simpa using hl)
        rw [hdw]
        simp [dedent_pops, if_neg hl]

/-- C7: when the new width is at most the current top, `handle_line_indent`
pops while the top exceeds the width — emitting exactly one DEDENT per
popped level — and stops at the first remaining level ≤ width, with no
requirement that the width equal a recorded level and no error (the
function is total). -/
theorem dedent_pops_to_first_level_le (levels : List Nat) (spaces row : Nat)
    (hbot : levels.getLast? = some 0) (hle : spaces ≤ levels.headD 0) :
    handle_line_indent levels spaces row =
      (levels.dropWhile (fun l => decide (spaces < l)),
       List.replicate
         (levels.length - (levels.dropWhile (fun l => decide (spaces < l))).length)
         ⟨TokenKind.DEDENT, "", Val.none, row, 1⟩) := by
  unfold handle_line_indent
  have : ¬ spaces > levels.headD 0 := by omega
  simp only [if_neg this]
  exact dedent_pops_drop levels spaces row hbot

/-- Witness for C7 at the ragged dedent `[4, 0]` with width `2` (which is
not a recorded level): one DEDENT, stack `[0]`. -/
theorem dedent_pops_to_first_level_le_witness :
    handle_line_indent [4, 0] 2 7 =
      (([4, 0] : List Nat).dropWhile (fun l => decide (2 < l)),
       List.replicate
         (([4, 0] : List Nat).length -
          (([4, 0] : List Nat).dropWhile (fun l => decide (2 < l))).length)
         ⟨TokenKind.DEDENT, "", Val.none, 7, 1⟩) :=
  dedent_pops_to_first_level_le [4, 0] 2 7 (by rfl) (by decide)

/-! ## C8 — postfix operators chain left-to-right -/

/-- C8: `"f(1)[0].x"` parses to
`attribute(subscript(invoke(ref "f", [1]), 0), "x")`, and the spec's other
example `"a.b(c)[d]"` to `subscript(invoke(attribute(a,"b"), [c]), d)`:
each postfix operation wraps the expression accumulated so far, in textual
order. -/
theorem postfix_chain_left_to_right :
    scan_and_parse "f(1)[0].x" =
      .ok ⟨[Stmt.ExprStmt (Expr.AttrNode
        (Expr.SubscriptNode
          (Expr.InvokeNode (Expr.VarRefNode (Val.str "f"))
            [Expr.NumNode (Val.int 1) false])
          (Expr.NumNode (Val.int 0) false))
        (Val.str "x"))]⟩ ∧
    scan_and_parse "a.b(c)[d]" =
      .ok ⟨[Stmt.ExprStmt (Expr.SubscriptNode
        (Expr.InvokeNode
          (Expr.AttrNode (Expr.VarRefNode (Val.str "a")) (Val.str "b"))
          [Expr.VarRefNode (Val.str "c")])
        (Expr.VarRefNode (Val.str "d")))]⟩ := by
  exact ⟨rfl, rfl⟩

/-! ## C9 — the indentation stack stays well-formed -/

/-- The scanner-state invariant: the stack (top first here, matching the
end of the Python list) is nonempty, its bottom element is `0`, and it
strictly decreases from top to bottom — i.e. strictly increases from
bottom to top. -/
def stack_wf (levels : List Nat) : Prop :=
  levels.getLast? = some 0 ∧ List.Chain' (fun a b => b < a) levels

/-- C9: the initial stack `[0]` is well-formed; `handle_line_indent` (the
only operation that pushes or pops during scanning) preserves
well-formedness for every width; and popping one level off a well-formed
stack of two or more levels (as the end-of-input flush does) preserves it
too. -/
theorem indent_stack_wf_invariant :
    stack_wf [0] ∧
    (∀ levels spaces row, stack_wf levels →
      stack_wf (handle_line_indent levels spaces row).1) ∧
    (∀ l ls, stack_wf (l :: ls) → ls ≠ [] → stack_wf ls) := by
  refine ⟨⟨rfl, List.chain'_singleton 0⟩, ?_, ?_⟩
  · intro levels spaces row ⟨hlast, hchain⟩
    unfold handle_line_indent
    by_cases hgt : spaces > levels.headD 0
    · simp only [if_pos hgt]
      cases levels with
      | nil => simp at hlast
      | cons a t =>
        refine ⟨by simpa [List.getLast?_cons_cons] using hlast, ?_⟩
        rw [List.chain'_cons']
        refine ⟨fun y hy => ?_, hchain⟩
        simp only [List.head?_cons, Option.mem_def, Option.some.injEq] at hy
        simp only [List.headD_cons] at hgt
        omega
    · simp only [if_neg hgt]
      rw [dedent_pops_drop levels spaces row hlast]
      constructor
      · have hne : levels.dropWhile (fun l => decide (spaces < l)) ≠ [] := by
          intro hnil
          rw [List.dropWhile_eq_nil_iff] at hnil
          have h0 : (0 : Nat) ∈ levels := List.mem_of_getLast?_eq_some hlast
          have := hnil 0 h0
          simp at this
        obtain ⟨pre, hpre⟩ := List.dropWhile_suffix
          (l := levels) (fun l => decide (spaces < l))
        rw [← hpre] at hlast
        rwa [List.getLast?_append_of_ne_nil pre hne] at hlast
      · exact hchain.suffix (List.dropWhile_suffix _)
  · intro l ls ⟨hlast, hchain⟩ hne
    cases ls with
    | nil => exact absurd rfl hne
    | cons b t =>
      exact ⟨by simpa [List.getLast?_cons_cons] using hlast, hchain.tail⟩

/-! ## C2 — one end marker, INDENT/DEDENT balance -/

/-- Number of tokens of a given kind. -/
def countKind (k : Nat) (ts : List CodeToken) : Nat :=
  ts.countP (fun t => t.kind == k)

theorem countKind_cons (k : Nat) (t : CodeToken) (ts : List CodeToken) :
    countKind k (t :: ts) = countKind k ts + (if t.kind = k then 1 else 0) := by
  simp [countKind, List.countP_cons]

theorem countKind_append (k : Nat) (l1 l2 : List CodeToken) :
    countKind k (l1 ++ l2) = countKind k l1 + countKind k l2 := by
  simp [countKind]

/-- The end-of-input flush: one DEDENT per non-bottom level. -/
theorem flush_dedents_spec (levels : List Nat) (row col : Nat) :
    (∀ t ∈ flush_dedents levels row col, t.kind = TokenKind.DEDENT) ∧
    (flush_dedents levels row col).length = levels.length - 1 := by
  induction levels with
  | nil => simp [flush_dedents]
  | cons l tail ih =>
    cases tail with
    | nil => simp [flush_dedents]
    | cons l2 t2 =>
      obtain ⟨ihk, ihl⟩ := ih
      constructor
      · intro t ht
        rw [flush_dedents] at ht
        rcases List.mem_cons.mp ht with h | h
        · rw [h]
        · exact ihk t h
      · rw [flush_dedents]
        simp only [List.length_cons] at ihl ⊢
        omega

/-- The pop loop shortens the stack by exactly the number of emitted
DEDENT tokens and never empties it. -/
theorem dedent_pops_spec (levels : List Nat) (spaces row : Nat)
    (h : levels ≠ []) :
    (dedent_pops levels spaces row).1 ≠ [] ∧
    (∀ t ∈ (dedent_pops levels spaces row).2, t.kind = TokenKind.DEDENT) ∧
    (dedent_pops levels spaces row).2.length +
      (dedent_pops levels spaces row).1.length = levels.length := by
  induction levels with
  | nil => exact absurd rfl h
  | cons l tail ih =>
    cases tail with
    | nil => simp [dedent_pops]
    | cons l2 t2 =>
      by_cases hl : l > spaces
      · obtain ⟨ih1, ih2, ih3⟩ := ih (by simp)
        rw [dedent_pops, if_pos hl]
        refine ⟨ih1, ?_, ?_⟩
        · intro t ht
          rcases List.mem_cons.mp ht with hh | hh
          · rw [hh]
          · exact ih2 t hh
        · simp only [List.length_cons] at ih3 ⊢
          omega
      · rw [dedent_pops, if_neg hl]
        simp

/-- `handle_line_indent` preserves nonemptiness of the stack, emits only
INDENT/DEDENT tokens, and its DEDENT/INDENT counts track the change in
stack height. -/
theorem handle_line_indent_spec (levels : List Nat) (spaces row : Nat)
    (h : levels ≠ []) :
    (handle_line_indent levels spaces row).1 ≠ [] ∧
    (∀ t ∈ (handle_line_indent levels spaces row).2,
      t.kind ≠ TokenKind.END) ∧
    countKind TokenKind.DEDENT (handle_line_indent levels spaces row).2 +
      (handle_line_indent levels spaces row).1.length =
    countKind TokenKind.INDENT (handle_line_indent levels spaces row).2 +
      levels.length := by
  unfold handle_line_indent
  by_cases hgt : spaces > levels.headD 0
  · rw [if_pos hgt]
    refine ⟨by simp, ?_, ?_⟩
    · intro t ht
      simp only [List.mem_singleton] at ht
      rw [ht]
      exact (by decide : TokenKind.INDENT ≠ TokenKind.END)
    · simp only [countKind, List.countP_cons, List.countP_nil, List.length_cons]
      norm_num [TokenKind.DEDENT, TokenKind.INDENT]
      omega
  · rw [if_neg hgt]
    obtain ⟨h1, h2, h3⟩ := dedent_pops_spec levels spaces row h
    refine ⟨h1, ?_, ?_⟩
    · intro t ht
      rw [h2 t ht]
      decide
    · have hd : countKind TokenKind.DEDENT (dedent_pops levels spaces row).2 =
          (dedent_pops levels spaces row).2.length := by
        rw [countKind, List.countP_eq_length]
        intro t ht
        rw [h2 t ht]
        simp
      have hi : countKind TokenKind.INDENT (dedent_pops levels spaces row).2 = 0 := by
        rw [countKind, List.countP_eq_zero]
        intro t ht
        rw [h2 t ht]
        decide
      omega

/-- Prepending one non-structural token preserves the C2 conclusions. -/
theorem c2_step_cons (n : Nat) (tok : CodeToken) (ts' : List CodeToken)
    (h1 : tok.kind ≠ TokenKind.END) (h2 : tok.kind ≠ TokenKind.INDENT)
    (h3 : tok.kind ≠ TokenKind.DEDENT)
    (hc : countKind TokenKind.END ts' = 1 ∧
      (∃ t, ts'.getLast? = some t ∧ t.kind = TokenKind.END) ∧
      countKind TokenKind.DEDENT ts' = countKind TokenKind.INDENT ts' + n) :
    countKind TokenKind.END (tok :: ts') = 1 ∧
    (∃ t, (tok :: ts').getLast? = some t ∧ t.kind = TokenKind.END) ∧
    countKind TokenKind.DEDENT (tok :: ts') =
      countKind TokenKind.INDENT (tok :: ts') + n := by
  obtain ⟨hEnd, ⟨t, hlast, hkind⟩, hbal⟩ := hc
  have hne : ts' ≠ [] := by
    intro hnil
    rw [hnil] at hEnd
    simp [countKind] at hEnd
  refine ⟨?_, ?_, ?_⟩
  · rw [countKind_cons, if_neg h1, hEnd]
  · refine ⟨t, ?_, hkind⟩
    cases ts' with
    | nil => exact absurd rfl hne
    | cons a l => rw [List.getLast?_cons_cons]; exact hlast
  · rw [countKind_cons, countKind_cons, if_neg h2, if_neg h3]
    omega

/-- Variant of `c2_step_cons` keyed on the kind bound: every token emitted
by the dispatch loop has kind below the structural markers. -/
theorem c2_step_cons_lt (n : Nat) (tok : CodeToken) (ts' : List CodeToken)
    (hk : tok.kind < 63)
    (hc : countKind TokenKind.END ts' = 1 ∧
      (∃ t, ts'.getLast? = some t ∧ t.kind = TokenKind.END) ∧
      countKind TokenKind.DEDENT ts' = countKind TokenKind.INDENT ts' + n) :
    countKind TokenKind.END (tok :: ts') = 1 ∧
    (∃ t, (tok :: ts').getLast? = some t ∧ t.kind = TokenKind.END) ∧
    countKind TokenKind.DEDENT (tok :: ts') =
      countKind TokenKind.INDENT (tok :: ts') + n :=
  c2_step_cons n tok ts'
    (by intro h; rw [h] at hk; exact absurd hk (by decide))
    (by intro h; rw [h] at hk; exact absurd hk (by decide))
    (by intro h; rw [h] at hk; exact absurd hk (by decide))
    hc

set_option maxHeartbeats 3000000 in
/-- Whenever the main scanning loop succeeds from a nonempty indentation
stack, the token list it produces contains exactly one end marker — as its
last element — and its DEDENT count exceeds its INDENT count by exactly
the number of open non-bottom levels (which the end-of-input flush
closes). -/
theorem tokenize_ok_spec :
    ∀ (fuel : Nat) (lineStart : Bool) (rest : List Char) (row col : Nat)
      (levels : List Nat) (ts : List CodeToken),
      levels ≠ [] →
      tokenize fuel lineStart rest row col levels = .ok ts →
      countKind TokenKind.END ts = 1 ∧
      (∃ t, ts.getLast? = some t ∧ t.kind = TokenKind.END) ∧
      countKind TokenKind.DEDENT ts =
        countKind TokenKind.INDENT ts + (levels.length - 1) := by
  intro fuel
  induction fuel with
  | zero =>
    intro ls rest row col levels ts _ hok
    simp [tokenize] at hok
  | succ fuel ih =>
    intro ls rest row col levels ts hlev hok
    cases rest with
    | nil =>
      simp only [tokenize, Except.ok.injEq] at hok
      subst hok
      obtain ⟨hfk, hfl⟩ := flush_dedents_spec levels row col
      have hfE : countKind TokenKind.END (flush_dedents levels row col) = 0 := by
        rw [countKind, List.countP_eq_zero]
        intro t ht
        rw [hfk t ht]
        decide
      have hfD : countKind TokenKind.DEDENT (flush_dedents levels row col) =
          (flush_dedents levels row col).length := by
        rw [countKind, List.countP_eq_length]
        intro t ht
        rw [hfk t ht]
        simp
      have hfI : countKind TokenKind.INDENT (flush_dedents levels row col) = 0 := by
        rw [countKind, List.countP_eq_zero]
        intro t ht
        rw [hfk t ht]
        decide
      refine ⟨?_, ?_, ?_⟩
      · rw [countKind_append, hfE, countKind_cons]
        simp [countKind]
      · exact ⟨_, List.getLast?_concat _, rfl⟩
      · rw [countKind_append, countKind_append, hfD, hfI, hfl,
          countKind_cons, countKind_cons]
        simp [countKind, TokenKind.END, TokenKind.DEDENT, TokenKind.INDENT]
    | cons c0 rest0 =>
      cases ls with
      | true =>
        simp only [tokenize, if_pos] at hok
        cases htw : take_indent_ws (c0 :: rest0) col 0 with
        | none => rw [htw] at hok; exact absurd hok (by simp)
        | some v =>
          obtain ⟨spaces, rest1, col1⟩ := v
          rw [htw] at hok
          dsimp only at hok
          cases rest1 with
          | nil => exact absurd hok (by simp)
          | cons c1 rest2 =>
            dsimp only at hok
            by_cases hcom : c1 = '#'
            · rw [if_pos hcom] at hok
              rcases hsc : skip_comment (c1 :: rest2) col1 with ⟨rest3, col3⟩
              rw [hsc] at hok
              dsimp only at hok
              cases rest3 with
              | nil => exact ih _ _ _ _ _ _ hlev hok
              | cons c3 rest4 =>
                dsimp only at hok
                by_cases hnl : c3 = '\n'
                · rw [if_pos hnl] at hok
                  exact ih _ _ _ _ _ _ hlev hok
                · rw [if_neg hnl] at hok
                  exact ih _ _ _ _ _ _ hlev hok
            · rw [if_neg hcom] at hok
              by_cases hnl : c1 = '\n'
              · rw [if_pos hnl] at hok
                exact ih _ _ _ _ _ _ hlev hok
              · rw [if_neg hnl] at hok
                rcases hh : handle_line_indent levels spaces row with ⟨levels', toks⟩
                rw [hh] at hok
                dsimp only at hok
                cases hrec : tokenize fuel false (c1 :: rest2) row col1 levels' with
                | error e => rw [hrec] at hok; exact absurd hok (by simp [Functor.map, Except.map])
                | ok ts' =>
                  rw [hrec] at hok
                  simp only [Functor.map, Except.map, Except.ok.injEq] at hok
                  subst hok
                  obtain ⟨hne', htk, hbal⟩ := handle_line_indent_spec levels spaces row hlev
                  rw [hh] at hne' htk hbal
                  dsimp only at hne' htk hbal
                  obtain ⟨ihE, ⟨t, hlast, hkind⟩, ihBal⟩ :=
                    ih _ _ _ _ _ _ hne' hrec
                  have htE : countKind TokenKind.END toks = 0 := by
                    rw [countKind, List.countP_eq_zero]
                    intro x hx
                    simpa using htk x hx
                  have hts' : ts' ≠ [] := by
                    intro hnil
                    rw [hnil] at ihE
                    simp [countKind] at ihE
                  refine ⟨?_, ?_, ?_⟩
                  · rw [countKind_append, htE, ihE]
                  · refine ⟨t, ?_, hkind⟩
                    rw [List.getLast?_append_of_ne_nil _ hts']
                    exact hlast
                  · rw [countKind_append, countKind_append, ihBal]
                    have hlev1 : 1 ≤ levels.length := by
                      cases levels with
                      | nil => exact absurd rfl hlev
                      | cons a b => simp
                    have hlev1' : 1 ≤ levels'.length := by
                      cases levels' with
                      | nil => exact absurd rfl hne'
                      | cons a b => simp
                    omega
      | false =>
        simp only [tokenize] at hok
        rw [if_neg (by decide : ¬ ((false : Bool) = true))] at hok
        by_cases hws : c0 = ' ' ∨ c0 = '\t'
        · rw [if_pos hws] at hok
          exact ih _ _ _ _ _ _ hlev hok
        · rw [if_neg hws] at hok
          by_cases hnl : c0 = '\n'
          · rw [if_pos hnl] at hok
            cases hrec : tokenize fuel true rest0 (row + 1) 1 levels with
            | error e => rw [hrec] at hok; exact absurd hok (by simp [Functor.map, Except.map])
            | ok ts' =>
              rw [hrec] at hok
              simp only [Functor.map, Except.map, Except.ok.injEq] at hok
              subst hok
              exact c2_step_cons_lt _ _ _
                (show TokenKind.NEWLINE < 63 by decide)
                (ih _ _ _ _ _ _ hlev hrec)
          · rw [if_neg hnl] at hok
            by_cases hcm : c0 = '#'
            · rw [if_pos hcm] at hok
              rcases hsc : skip_comment (c0 :: rest0) col with ⟨rest1, col1⟩
              rw [hsc] at hok
              dsimp only at hok
              exact ih _ _ _ _ _ _ hlev hok
            · rw [if_neg hcm] at hok
              by_cases hdg : c0.isDigit
              · rw [if_pos hdg] at hok
                rcases hsn : scan_numeric_loop (c0 :: rest0) col [] false with
                  ⟨buffer, hasDec, rest1, col1⟩
                rw [hsn] at hok
                dsimp only at hok
                cases hrec : tokenize fuel false rest1 row col1 levels with
                | error e => rw [hrec] at hok; exact absurd hok (by simp [Functor.map, Except.map])
                | ok ts' =>
                  rw [hrec] at hok
                  simp only [Functor.map, Except.map, Except.ok.injEq] at hok
                  subst hok
                  cases hasDec with
                  | true =>
                    exact c2_step_cons_lt _ _ _
                      (show TokenKind.NUM_FLOAT < 63 by decide)
                      (ih _ _ _ _ _ _ hlev hrec)
                  | false =>
                    exact c2_step_cons_lt _ _ _
                      (show TokenKind.NUM_INT < 63 by decide)
                      (ih _ _ _ _ _ _ hlev hrec)
              · rw [if_neg hdg] at hok
                by_cases hqt : c0 = '"' ∨ c0 = '\''
                · rw [if_pos hqt] at hok
                  cases hst : scan_text_loop c0 rest0 row (col + 1) [] with
                  | none => rw [hst] at hok; exact absurd hok (by simp)
                  | some v =>
                    obtain ⟨buffer, rest1, row1, col1⟩ := v
                    rw [hst] at hok
                    dsimp only at hok
                    cases hrec : tokenize fuel false rest1 row1 col1 levels with
                    | error e =>
                      rw [hrec] at hok; exact absurd hok (by simp [Functor.map, Except.map])
                    | ok ts' =>
                      rw [hrec] at hok
                      simp only [Functor.map, Except.map, Except.ok.injEq] at hok
                      subst hok
                      exact c2_step_cons_lt _ _ _
                        (show TokenKind.TEXT < 63 by decide)
                        (ih _ _ _ _ _ _ hlev hrec)
                · rw [if_neg hqt] at hok
                  by_cases hal : c0.isAlpha ∨ c0 = '_'
                  · rw [if_pos hal] at hok
                    rcases hsi : scan_identifier_loop (c0 :: rest0) col [] with
                      ⟨buffer, rest1, col1⟩
                    rw [hsi] at hok
                    dsimp only at hok
                    cases hrec : tokenize fuel false rest1 row col1 levels with
                    | error e =>
                      rw [hrec] at hok; exact absurd hok (by simp [Functor.map, Except.map])
                    | ok ts' =>
                      rw [hrec] at hok
                      simp only [Functor.map, Except.map, Except.ok.injEq] at hok
                      subst hok
                      have hklt := reserved_kind_lt (String.mk buffer)
                      exact c2_step_cons_lt _ _ _
                        (Nat.lt_of_lt_of_le hklt (by decide))
                        (ih _ _ _ _ _ _ hlev hrec)
                  · rw [if_neg hal] at hok
                    cases rest0 with
                    | nil =>
                      dsimp only at hok
                      cases h2c : two_char_ops.lookup (String.mk [c0]) with
                      | some k =>
                        rw [h2c] at hok
                        dsimp only at hok
                        cases hrec : tokenize fuel false ([] : List Char).tail row (col + 2)
                            levels with
                        | error e =>
                          rw [hrec] at hok
                          exact absurd hok (by simp [Functor.map, Except.map])
                        | ok ts' =>
                          rw [hrec] at hok
                          simp only [Functor.map, Except.map, Except.ok.injEq] at hok
                          subst hok
                          have hklt : k < 62 := by
                            simpa using two_char_vals_lt k (lookup_val_mem _ _ k h2c)
                          exact c2_step_cons_lt _ _ _
                            (Nat.lt_of_lt_of_le hklt (by decide))
                            (ih _ _ _ _ _ _ hlev hrec)
                      | none =>
                        rw [h2c] at hok
                        dsimp only at hok
                        cases h1c : single_ops.lookup c0 with
                        | some k =>
                          rw [h1c] at hok
                          dsimp only at hok
                          cases hrec : tokenize fuel false [] row (col + 1)
                              levels with
                          | error e =>
                            rw [hrec] at hok
                            exact absurd hok (by simp [Functor.map, Except.map])
                          | ok ts' =>
                            rw [hrec] at hok
                            simp only [Functor.map, Except.map, Except.ok.injEq] at hok
                            subst hok
                            have hklt : k < 62 := by
                              simpa using single_vals_lt k (lookup_val_mem _ _ k h1c)
                            exact c2_step_cons_lt _ _ _
                              (Nat.lt_of_lt_of_le hklt (by decide))
                              (ih _ _ _ _ _ _ hlev hrec)
                        | none =>
                          rw [h1c] at hok
                          dsimp only at hok
                          exact absurd hok (by simp)
                    | cons c1 rest0' =>
                      dsimp only at hok
                      cases h2c : two_char_ops.lookup (String.mk [c0, c1]) with
                      | some k =>
                        rw [h2c] at hok
                        dsimp only at hok
                        cases hrec : tokenize fuel false (c1 :: rest0').tail row (col + 2)
                            levels with
                        | error e =>
                          rw [hrec] at hok
                          exact absurd hok (by simp [Functor.map, Except.map])
                        | ok ts' =>
                          rw [hrec] at hok
                          simp only [Functor.map, Except.map, Except.ok.injEq] at hok
                          subst hok
                          have hklt : k < 62 := by
                            simpa using two_char_vals_lt k (lookup_val_mem _ _ k h2c)
                          exact c2_step_cons_lt _ _ _
                            (Nat.lt_of_lt_of_le hklt (by decide))
                            (ih _ _ _ _ _ _ hlev hrec)
                      | none =>
                        rw [h2c] at hok
                        dsimp only at hok
                        cases h1c : single_ops.lookup c0 with
                        | some k =>
                          rw [h1c] at hok
                          dsimp only at hok
                          cases hrec : tokenize fuel false (c1 :: rest0') row (col + 1)
                              levels with
                          | error e =>
                            rw [hrec] at hok
                            exact absurd hok (by simp [Functor.map, Except.map])
                          | ok ts' =>
                            rw [hrec] at hok
                            simp only [Functor.map, Except.map, Except.ok.injEq] at hok
                            subst hok
                            have hklt : k < 62 := by
                              simpa using single_vals_lt k (lookup_val_mem _ _ k h1c)
                            exact c2_step_cons_lt _ _ _
                              (Nat.lt_of_lt_of_le hklt (by decide))
                              (ih _ _ _ _ _ _ hlev hrec)
                        | none =>
                          rw [h1c] at hok
                          dsimp only at hok
                          exact absurd hok (by simp)

/-- C2: whenever `scan` succeeds, the token sequence has exactly one end
marker, as its last element, and equally many INDENT and DEDENT tokens
(the end-of-input flush included). -/
theorem scan_end_marker_and_balance (s : String) (ts : List CodeToken)
    (h : scan s = .ok ts) :
    countKind TokenKind.END ts = 1 ∧
    (∃ t, ts.getLast? = some t ∧ t.kind = TokenKind.END) ∧
    countKind TokenKind.INDENT ts = countKind TokenKind.DEDENT ts := by
  obtain ⟨h1, h2, h3⟩ :=
    tokenize_ok_spec (2 * s.data.length + 2) true s.data 1 1 [0] ts
      (by simp) h
  refine ⟨h1, h2, ?_⟩
  simpa using h3.symm

/-- Witness for C2 on the source `"if true:\n    x = 1\n"`, whose token
stream contains one INDENT, one DEDENT and one end marker. -/
theorem scan_end_marker_and_balance_witness :
    countKind TokenKind.END
      [⟨TokenKind.COND_IF, "if", Val.str "if", 1, 1⟩,
       ⟨TokenKind.BOOL_T, "true", Val.bool true, 1, 4⟩,
       ⟨TokenKind.PUNCT_COLON, ":", Val.str ":", 1, 8⟩,
       ⟨TokenKind.NEWLINE, "\n", Val.str "\n", 1, 9⟩,
       ⟨TokenKind.INDENT, "", Val.none, 2, 1⟩,
       ⟨TokenKind.NAME, "x", Val.str "x", 2, 5⟩,
       ⟨TokenKind.ASSIGN, "=", Val.str "=", 2, 7⟩,
       ⟨TokenKind.NUM_INT, "1", Val.int 1, 2, 9⟩,
       ⟨TokenKind.NEWLINE, "\n", Val.str "\n", 2, 10⟩,
       ⟨TokenKind.DEDENT, "", Val.none, 3, 1⟩,
       ⟨TokenKind.END, "", Val.none, 3, 1⟩] = 1 ∧
    (∃ t, ([⟨TokenKind.COND_IF, "if", Val.str "if", 1, 1⟩,
       ⟨TokenKind.BOOL_T, "true", Val.bool true, 1, 4⟩,
       ⟨TokenKind.PUNCT_COLON, ":", Val.str ":", 1, 8⟩,
       ⟨TokenKind.NEWLINE, "\n", Val.str "\n", 1, 9⟩,
       ⟨TokenKind.INDENT, "", Val.none, 2, 1⟩,
       ⟨TokenKind.NAME, "x", Val.str "x", 2, 5⟩,
       ⟨TokenKind.ASSIGN, "=", Val.str "=", 2, 7⟩,
       ⟨TokenKind.NUM_INT, "1", Val.int 1, 2, 9⟩,
       ⟨TokenKind.NEWLINE, "\n", Val.str "\n", 2, 10⟩,
       ⟨TokenKind.DEDENT, "", Val.none, 3, 1⟩,
       ⟨TokenKind.END, "", Val.none, 3, 1⟩] : List CodeToken).getLast? = some t ∧
       t.kind = TokenKind.END) ∧
    countKind TokenKind.INDENT
      [⟨TokenKind.COND_IF, "if", Val.str "if", 1, 1⟩,
       ⟨TokenKind.BOOL_T, "true", Val.bool true, 1, 4⟩,
       ⟨TokenKind.PUNCT_COLON, ":", Val.str ":", 1, 8⟩,
       ⟨TokenKind.NEWLINE, "\n", Val.str "\n", 1, 9⟩,
       ⟨TokenKind.INDENT, "", Val.none, 2, 1⟩,
       ⟨TokenKind.NAME, "x", Val.str "x", 2, 5⟩,
       ⟨TokenKind.ASSIGN, "=", Val.str "=", 2, 7⟩,
       ⟨TokenKind.NUM_INT, "1", Val.int 1, 2, 9⟩,
       ⟨TokenKind.NEWLINE, "\n", Val.str "\n", 2, 10⟩,
       ⟨TokenKind.DEDENT, "", Val.none, 3, 1⟩,
       ⟨TokenKind.END, "", Val.none, 3, 1⟩] =
    countKind TokenKind.DEDENT
      [⟨TokenKind.COND_IF, "if", Val.str "if", 1, 1⟩,
       ⟨TokenKind.BOOL_T, "true", Val.bool true, 1, 4⟩,
       ⟨TokenKind.PUNCT_COLON, ":", Val.str ":", 1, 8⟩,
       ⟨TokenKind.NEWLINE, "\n", Val.str "\n", 1, 9⟩,
       ⟨TokenKind.INDENT, "", Val.none, 2, 1⟩,
       ⟨TokenKind.NAME, "x", Val.str "x", 2, 5⟩,
       ⟨TokenKind.ASSIGN, "=", Val.str "=", 2, 7⟩,
       ⟨TokenKind.NUM_INT, "1", Val.int 1, 2, 9⟩,
       ⟨TokenKind.NEWLINE, "\n", Val.str "\n", 2, 10⟩,
       ⟨TokenKind.DEDENT, "", Val.none, 3, 1⟩,
       ⟨TokenKind.END, "", Val.none, 3, 1⟩] :=
  scan_end_marker_and_balance "if true:\n    x = 1\n" _ (by rfl)

/-! ## C10 — semicolons are tokenized but never parsed

The counterexample below refutes the claim's "the scan succeeds": a source
can contain `';'` outside strings and comments and still fail to scan
because of a different character.  The amended claim conditions on scan
success and is proved through an invariant of the whole recursive descent:
no parser branch ever consumes a semicolon token (or an end marker), so a
semicolon sitting before the end marker can never be passed, while success
of `build_tree` requires reaching the end marker. -/

/-- The tokens a parser step may consume: anything but a semicolon or the
end marker. -/
def clean_consumed (pre : List CodeToken) : Prop :=
  ∀ t ∈ pre, t.kind ≠ TokenKind.PUNCT_SEMI ∧ t.kind ≠ TokenKind.END

/-- `ts'` is reachable from `ts` by consuming only non-semicolon,
non-end-marker tokens. -/
def Consumed (ts ts' : List CodeToken) : Prop :=
  ∃ pre, ts = pre ++ ts' ∧ clean_consumed pre

theorem consumed_refl (ts : List CodeToken) : Consumed ts ts :=
  ⟨[], rfl, by intro t ht; simp at ht⟩

theorem consumed_trans {a b c : List CodeToken}
    (h1 : Consumed a b) (h2 : Consumed b c) : Consumed a c := by
  obtain ⟨p1, hp1, hc1⟩ := h1
  obtain ⟨p2, hp2, hc2⟩ := h2
  refine ⟨p1 ++ p2, by rw [hp1, hp2, List.append_assoc], ?_⟩
  intro t ht
  rcases List.mem_append.mp ht with h | h
  · exact hc1 t h
  · exact hc2 t h

theorem consumed_discard (ts : List CodeToken) :
    Consumed ts (discard_newlines ts) := by
  induction ts with
  | nil => exact consumed_refl []
  | cons t r ih =>
    rw [discard_newlines]
    by_cases hnl : t.kind = TokenKind.NEWLINE
    · rw [if_pos hnl]
      obtain ⟨pre, hpre, hcl⟩ := ih
      refine ⟨t :: pre, by rw [List.cons_append, ← hpre], ?_⟩
      intro x hx
      rcases List.mem_cons.mp hx with h | h
      · rw [h, hnl]; exact ⟨by decide, by decide⟩
      · exact hcl x h
    · rw [if_neg hnl]
      exact consumed_refl _

theorem consumed_move_head {ts : List CodeToken} {t : CodeToken}
    (hcur : current ts = some t)
    (ht : t.kind ≠ TokenKind.PUNCT_SEMI ∧ t.kind ≠ TokenKind.END) :
    Consumed ts (move_forward ts).2 := by
  cases ts with
  | nil => simp [current] at hcur
  | cons t0 r =>
    have ht0 : t0 = t := by simpa [current] using hcur
    subst ht0
    rw [move_forward, if_neg ht.2]
    exact ⟨[t0], rfl, by intro x hx; rw [List.mem_singleton] at hx; rw [hx]; exact ht⟩

theorem consumed_move {ts : List CodeToken} {ks : List Nat}
    (h : check ts ks = true)
    (hks : ∀ k ∈ ks, k ≠ TokenKind.PUNCT_SEMI ∧ k ≠ TokenKind.END) :
    Consumed ts (move_forward ts).2 := by
  cases ts with
  | nil => simp [check] at h
  | cons t0 r =>
    have hmem : t0.kind ∈ ks := by simpa [check] using h
    exact consumed_move_head (by simp [current]) (hks t0.kind hmem)

theorem consumed_require {k : Nat} {ts ts' : List CodeToken} {t : CodeToken}
    (hk : k ≠ TokenKind.PUNCT_SEMI ∧ k ≠ TokenKind.END)
    (h : require k ts = .ok (t, ts')) : Consumed ts ts' := by
  cases ts with
  | nil => simp [require] at h
  | cons t0 r =>
    rw [require] at h
    by_cases hkk : t0.kind = k
    · rw [if_pos hkk] at h
      simp only [Except.ok.injEq, Prod.mk.injEq] at h
      obtain ⟨ht0, hts⟩ := h
      rw [move_forward, if_neg (by rw [hkk]; exact hk.2)] at hts
      dsimp only at hts
      subst hts
      exact ⟨[t0], rfl, by
        intro x hx
        rw [List.mem_singleton] at hx
        rw [hx]
        exact ⟨by rw [hkk]; exact hk.1, by rw [hkk]; exact hk.2⟩⟩
    · rw [if_neg hkk] at h
      exact absurd h (by simp)

/-- A kind with nonnegative precedence is a binary operator, hence neither
the semicolon nor the end marker. -/
theorem prec_nonneg_ne {k : Nat} (h : 0 ≤ get_precedence k) :
    k ≠ TokenKind.PUNCT_SEMI ∧ k ≠ TokenKind.END := by
  constructor
  · rintro rfl
    rw [show get_precedence TokenKind.PUNCT_SEMI = -1 from rfl] at h
    exact absurd h (by decide)
  · rintro rfl
    rw [show get_precedence TokenKind.END = -1 from rfl] at h
    exact absurd h (by decide)

/-- Preconditions under which a `parseFn` branch is actually invoked by
the source: precedence thresholds are nonnegative (they start at 0 and only
grow), and `parse_var_decl` is entered only on a `let`/`const` token (its
unguarded leading `move_forward`). -/
def tag_ok : PIn → List CodeToken → Prop
  | .prec mp, _ => 0 ≤ mp
  | .prec_loop mp _, _ => 0 ≤ mp
  | .var_decl, ts =>
    match current ts with
    | some t => t.kind = TokenKind.VAR_LET ∨ t.kind = TokenKind.VAR_CONST
    | Option.none => False
  | _, _ => True

/-- Witness for C9: pushing onto, and popping from, the well-formed stack
`[4, 0]`. -/
theorem indent_stack_wf_invariant_witness :
    stack_wf (handle_line_indent [4, 0] 6 3).1 ∧ stack_wf [0] :=
  ⟨indent_stack_wf_invariant.2.1 [4, 0] 6 3
      ⟨rfl, List.chain'_cons.mpr ⟨by norm_num, List.chain'_singleton 0⟩⟩,
   indent_stack_wf_invariant.2.2 4 [0]
      ⟨rfl, List.chain'_cons.mpr ⟨by norm_num, List.chain'_singleton 0⟩⟩
      (by simp)⟩

set_option maxHeartbeats 4000000 in
/-- Core invariant for C10: every successful parser step consumes only
tokens that are neither semicolons nor end markers. -/
theorem parseFn_consumed :
    ∀ (fuel : Nat) (tag : PIn) (ts : List CodeToken) (out : POut)
      (ts' : List CodeToken),
      tag_ok tag ts → parseFn fuel tag ts = .ok (out, ts') → Consumed ts ts' := by
  intro fuel
  induction fuel with
  | zero => intro tag ts out ts' _ hok; simp [parseFn] at hok
  | succ fuel ih =>
    intro tag ts out ts' hpre hok
    cases tag with
    | tree =>
      rw [parseFn] at hok
      have c0 := consumed_discard ts
      split at hok
      · -- current = none
        simp only [Except.ok.injEq, Prod.mk.injEq] at hok
        obtain ⟨-, hts⟩ := hok
        subst hts
        exact c0
      · rename_i t0 hcur
        split at hok
        · -- END reached
          simp only [Except.ok.injEq, Prod.mk.injEq] at hok
          obtain ⟨-, hts⟩ := hok
          subst hts
          exact c0
        · split at hok
          · exact absurd hok (by simp)
          · rename_i v1 o1 tsA heq1
            split at hok
            · exact absurd hok (by simp)
            · rename_i s1 ho1
              split at hok
              · exact absurd hok (by simp)
              · rename_i v2 o2 tsB heq2
                split at hok
                · exact absurd hok (by simp)
                · rename_i l2 ho2
                  simp only [Except.ok.injEq, Prod.mk.injEq] at hok
                  obtain ⟨-, hts⟩ := hok
                  subst hts
                  exact consumed_trans c0 (consumed_trans
                    (ih _ _ _ _ (by trivial) heq1) (ih _ _ _ _ (by trivial) heq2))
    | stmt =>
      rw [parseFn] at hok
      have c0 := consumed_discard ts
      split at hok
      · -- current = none
        simp only [Except.ok.injEq, Prod.mk.injEq] at hok
        obtain ⟨-, hts⟩ := hok
        subst hts
        exact c0
      · rename_i tok hcur
        by_cases h0 : tok.kind = TokenKind.END
        · rw [if_pos h0] at hok
          simp only [Except.ok.injEq, Prod.mk.injEq] at hok
          obtain ⟨-, hts⟩ := hok
          subst hts
          exact c0
        rw [if_neg h0] at hok
        by_cases h1 : tok.kind = TokenKind.FUNC_DEF
        · rw [if_pos h1] at hok
          split at hok
          · exact absurd hok (by simp)
          · rename_i v1 o1 tsA heq1
            split at hok
            · exact absurd hok (by simp)
            · rename_i s1 ho1
              simp only [Except.ok.injEq, Prod.mk.injEq] at hok
              obtain ⟨-, hts⟩ := hok
              subst hts
              exact consumed_trans c0 (ih _ _ _ _ (by trivial) heq1)
        rw [if_neg h1] at hok
        by_cases h2 : tok.kind = TokenKind.VAR_LET ∨ tok.kind = TokenKind.VAR_CONST
        · rw [if_pos h2] at hok
          split at hok
          · exact absurd hok (by simp)
          · rename_i v1 o1 tsA heq1
            split at hok
            · exact absurd hok (by simp)
            · rename_i s1 ho1
              simp only [Except.ok.injEq, Prod.mk.injEq] at hok
              obtain ⟨-, hts⟩ := hok
              subst hts
              refine consumed_trans c0 (ih _ _ _ _ ?_ heq1)
              show tag_ok PIn.var_decl (discard_newlines ts)
              rw [tag_ok, hcur]
              exact h2
        rw [if_neg h2] at hok
        by_cases h3 : tok.kind = TokenKind.COND_IF
        · rw [if_pos h3] at hok
          split at hok
          · exact absurd hok (by simp)
          · rename_i v1 o1 tsA heq1
            split at hok
            · exact absurd hok (by simp)
            · rename_i s1 ho1
              simp only [Except.ok.injEq, Prod.mk.injEq] at hok
              obtain ⟨-, hts⟩ := hok
              subst hts
              exact consumed_trans c0 (ih _ _ _ _ (by trivial) heq1)
        rw [if_neg h3] at hok
        by_cases h4 : tok.kind = TokenKind.LOOP_WHILE
        · rw [if_pos h4] at hok
          split at hok
          · exact absurd hok (by simp)
          · rename_i v1 o1 tsA heq1
            split at hok
            · exact absurd hok (by simp)
            · rename_i s1 ho1
              simp only [Except.ok.injEq, Prod.mk.injEq] at hok
              obtain ⟨-, hts⟩ := hok
              subst hts
              exact consumed_trans c0 (ih _ _ _ _ (by trivial) heq1)
        rw [if_neg h4] at hok
        by_cases h5 : tok.kind = TokenKind.LOOP_FOR
        · rw [if_pos h5] at hok
          split at hok
          · exact absurd hok (by simp)
          · rename_i v1 o1 tsA heq1
            split at hok
            · exact absurd hok (by simp)
            · rename_i s1 ho1
              simp only [Except.ok.injEq, Prod.mk.injEq] at hok
              obtain ⟨-, hts⟩ := hok
              subst hts
              exact consumed_trans c0 (ih _ _ _ _ (by trivial) heq1)
        rw [if_neg h5] at hok
        by_cases h6 : tok.kind = TokenKind.RET
        · rw [if_pos h6] at hok
          split at hok
          · exact absurd hok (by simp)
          · rename_i v1 o1 tsA heq1
            split at hok
            · exact absurd hok (by simp)
            · rename_i s1 ho1
              simp only [Except.ok.injEq, Prod.mk.injEq] at hok
              obtain ⟨-, hts⟩ := hok
              subst hts
              exact consumed_trans c0 (ih _ _ _ _ (by trivial) heq1)
        rw [if_neg h6] at hok
        by_cases h7 : tok.kind = TokenKind.SKIP
        · rw [if_pos h7] at hok
          simp only [Except.ok.injEq, Prod.mk.injEq] at hok
          obtain ⟨-, hts⟩ := hok
          subst hts
          refine consumed_trans c0 (consumed_trans
            (consumed_move_head hcur ?_) (consumed_discard _))
          rw [h7]
          exact ⟨by decide, by decide⟩
        rw [if_neg h7] at hok
        by_cases h8 : tok.kind = TokenKind.HALT
        · rw [if_pos h8] at hok
          simp only [Except.ok.injEq, Prod.mk.injEq] at hok
          obtain ⟨-, hts⟩ := hok
          subst hts
          refine consumed_trans c0 (consumed_trans
            (consumed_move_head hcur ?_) (consumed_discard _))
          rw [h8]
          exact ⟨by decide, by decide⟩
        rw [if_neg h8] at hok
        by_cases h9 : tok.kind = TokenKind.NOOP
        · rw [if_pos h9] at hok
          simp only [Except.ok.injEq, Prod.mk.injEq] at hok
          obtain ⟨-, hts⟩ := hok
          subst hts
          refine consumed_trans c0 (consumed_trans
            (consumed_move_head hcur ?_) (consumed_discard _))
          rw [h9]
          exact ⟨by decide, by decide⟩
        rw [if_neg h9] at hok
        by_cases h10 : tok.kind = TokenKind.STRUCT_CLASS
        · rw [if_pos h10] at hok
          split at hok
          · exact absurd hok (by simp)
          · rename_i v1 o1 tsA heq1
            split at hok
            · exact absurd hok (by simp)
            · rename_i s1 ho1
              simp only [Except.ok.injEq, Prod.mk.injEq] at hok
              obtain ⟨-, hts⟩ := hok
              subst hts
              exact consumed_trans c0 (ih _ _ _ _ (by trivial) heq1)
        rw [if_neg h10] at hok
        by_cases h11 : tok.kind = TokenKind.MOD_IMPORT ∨ tok.kind = TokenKind.MOD_FROM
        · rw [if_pos h11] at hok
          split at hok
          · exact absurd hok (by simp)
          · rename_i v1 o1 tsA heq1
            split at hok
            · exact absurd hok (by simp)
            · rename_i s1 ho1
              simp only [Except.ok.injEq, Prod.mk.injEq] at hok
              obtain ⟨-, hts⟩ := hok
              subst hts
              exact consumed_trans c0 (ih _ _ _ _ (by trivial) heq1)
        rw [if_neg h11] at hok
        split at hok
        · exact absurd hok (by simp)
        · rename_i v1 o1 tsA heq1
          split at hok
          · exact absurd hok (by simp)
          · rename_i e1 ho1
            have cA : Consumed (discard_newlines ts) tsA :=
              ih _ _ _ _ (by trivial) heq1
            split at hok
            · -- assignment operator present
              rename_i hasg
              split at hok
              · exact absurd hok (by simp)
              · rename_i op_tok hcur2
                dsimp only at hok
                split at hok
                · exact absurd hok (by simp)
                · rename_i v2 o2 tsB heq2
                  split at hok
                  · exact absurd hok (by simp)
                  · rename_i e2 ho2
                    simp only [Except.ok.injEq, Prod.mk.injEq] at hok
                    obtain ⟨-, hts⟩ := hok
                    subst hts
                    refine consumed_trans c0 (consumed_trans cA
                      (consumed_trans (consumed_move hasg ?_)
                        (consumed_trans (ih _ _ _ _ (by trivial) heq2)
                          (consumed_discard _))))
                    decide
            · simp only [Except.ok.injEq, Prod.mk.injEq] at hok
              obtain ⟨-, hts⟩ := hok
              subst hts
              exact consumed_trans c0
                (consumed_trans cA (consumed_discard _))
    | func_params_loop =>
      rw [parseFn] at hok
      split at hok
      · exact absurd hok (by simp)
      · rename_i v1 name_tok tsA hq1
        have c1 : Consumed ts tsA := consumed_require (by decide) hq1
        dsimp only at hok
        split at hok
        · exact absurd hok (by simp)
        · rename_i vS tspec tsB heqS
          have cS : Consumed tsA tsB := by
            split at heqS
            · rename_i hcol
              split at heqS
              · exact absurd heqS (by simp)
              · rename_i v o ts3 hr
                split at heqS
                · exact absurd heqS (by simp)
                · rename_i t hp
                  simp only [Except.ok.injEq, Prod.mk.injEq] at heqS
                  obtain ⟨-, hts3⟩ := heqS
                  subst hts3
                  exact consumed_trans (consumed_move hcol (by decide))
                    (ih _ _ _ _ (by trivial) hr)
            · simp only [Except.ok.injEq, Prod.mk.injEq] at heqS
              obtain ⟨-, hts3⟩ := heqS
              subst hts3
              exact consumed_refl _
          split at hok
          · exact absurd hok (by simp)
          · rename_i vD dfltv tsC heqD
            have cD : Consumed tsB tsC := by
              split at heqD
              · rename_i hasn
                split at heqD
                · exact absurd heqD (by simp)
                · rename_i v o ts3 hr
                  split at heqD
                  · exact absurd heqD (by simp)
                  · rename_i t hp
                    simp only [Except.ok.injEq, Prod.mk.injEq] at heqD
                    obtain ⟨-, hts3⟩ := heqD
                    subst hts3
                    exact consumed_trans (consumed_move hasn (by decide))
                      (ih _ _ _ _ (by trivial) hr)
              · simp only [Except.ok.injEq, Prod.mk.injEq] at heqD
                obtain ⟨-, hts3⟩ := heqD
                subst hts3
                exact consumed_refl _
            by_cases hcom : check tsC [TokenKind.PUNCT_COMMA] = true
            · rw [if_pos hcom] at hok
              cases hr4 : parseFn fuel PIn.func_params_loop (move_forward tsC).2 with
              | error e => rw [hr4] at hok; exact absurd hok (by simp)
              | ok v4 =>
                obtain ⟨o4, tsD⟩ := v4
                rw [hr4] at hok
                dsimp only at hok
                cases ho4 : o4.asParams with
                | error e => rw [ho4] at hok; exact absurd hok (by simp)
                | ok rest4 =>
                  rw [ho4] at hok
                  dsimp only at hok
                  simp only [Except.ok.injEq, Prod.mk.injEq] at hok
                  obtain ⟨-, hts⟩ := hok
                  subst hts
                  exact consumed_trans c1 (consumed_trans cS (consumed_trans cD
                    (consumed_trans (consumed_move hcom (by decide))
                      (ih _ _ _ _ (by trivial) hr4))))
            · rw [if_neg hcom] at hok
              simp only [Except.ok.injEq, Prod.mk.injEq] at hok
              obtain ⟨-, hts⟩ := hok
              subst hts
              exact consumed_trans c1 (consumed_trans cS cD)
    | func_decl =>
      rw [parseFn] at hok
      dsimp only at hok
      split at hok
      · exact absurd hok (by simp)
      · rename_i v1 t1 tsA hq1
        have c1 : Consumed ts tsA := consumed_require (by decide) hq1
        split at hok
        · exact absurd hok (by simp)
        · rename_i v2 name_tok tsB hq2
          have c2 : Consumed tsA tsB := consumed_require (by decide) hq2
          split at hok
          · exact absurd hok (by simp)
          · rename_i v3 t3 tsC hq3
            have c3 : Consumed tsB tsC := consumed_require (by decide) hq3
            split at hok
            · exact absurd hok (by simp)
            · rename_i v4 o4 tsD heq4
              have c4 : Consumed tsC tsD := ih _ _ _ _ (by trivial) heq4
              split at hok
              · exact absurd hok (by simp)
              · rename_i params4 ho4
                split at hok
                · exact absurd hok (by simp)
                · rename_i v5 t5 tsE hq5
                  have c5 : Consumed tsD tsE := consumed_require (by decide) hq5
                  split at hok
                  · exact absurd hok (by simp)
                  · rename_i vS rett tsF heqS
                    have cS : Consumed tsE tsF := by
                      split at heqS
                      · rename_i hrar
                        split at heqS
                        · exact absurd heqS (by simp)
                        · rename_i v o ts3 hr
                          split at heqS
                          · exact absurd heqS (by simp)
                          · rename_i t hp
                            simp only [Except.ok.injEq, Prod.mk.injEq] at heqS
                            obtain ⟨-, hts3⟩ := heqS
                            subst hts3
                            exact consumed_trans (consumed_move hrar (by decide))
                              (ih _ _ _ _ (by trivial) hr)
                      · simp only [Except.ok.injEq, Prod.mk.injEq] at heqS
                        obtain ⟨-, hts3⟩ := heqS
                        subst hts3
                        exact consumed_refl _
                    split at hok
                    · exact absurd hok (by simp)
                    · rename_i v7 t7 tsG hq7
                      have c7 : Consumed tsF tsG := consumed_require (by decide) hq7
                      split at hok
                      · exact absurd hok (by simp)
                      · rename_i v8 o8 tsH heq8
                        have c8 : Consumed (discard_newlines tsG) tsH :=
                          ih _ _ _ _ (by trivial) heq8
                        split at hok
                        · exact absurd hok (by simp)
                        · rename_i b8 ho8
                          simp only [Except.ok.injEq, Prod.mk.injEq] at hok
                          obtain ⟨-, hts⟩ := hok
                          subst hts
                          exact consumed_trans c1 (consumed_trans c2
                            (consumed_trans c3 (consumed_trans c4
                              (consumed_trans c5 (consumed_trans cS
                                (consumed_trans c7 (consumed_trans
                                  (consumed_discard tsG) c8)))))))
    | func_params =>
      rw [parseFn] at hok
      by_cases hc : check ts [TokenKind.GROUP_RPAREN] = true
      · rw [if_pos hc] at hok
        simp only [Except.ok.injEq, Prod.mk.injEq] at hok
        obtain ⟨-, hts⟩ := hok
        subst hts
        exact consumed_refl ts
      · rw [if_neg hc] at hok
        exact ih _ _ _ _ (by trivial) hok
    | var_decl =>
      rw [parseFn] at hok
      cases hcur : current ts with
      | none =>
        rw [tag_ok, hcur] at hpre
        exact absurd hpre (by simp)
      | some t0 =>
        have hpre2 : t0.kind = TokenKind.VAR_LET ∨ t0.kind = TokenKind.VAR_CONST := by
          rw [tag_ok, hcur] at hpre
          exact hpre
        have c0 : Consumed ts (move_forward ts).2 := by
          refine consumed_move_head hcur ?_
          rcases hpre2 with h | h <;> rw [h] <;> exact ⟨by decide, by decide⟩
        rw [hcur] at hok
        dsimp only at hok
        split at hok
        · exact absurd hok (by simp)
        · rename_i v1 name_tok tsA hq1
          have c1 : Consumed (move_forward ts).2 tsA := consumed_require (by decide) hq1
          split at hok
          · exact absurd hok (by simp)
          · rename_i vS tspec tsB heqS
            have cS : Consumed tsA tsB := by
              split at heqS
              · rename_i hcol
                split at heqS
                · exact absurd heqS (by simp)
                · rename_i v o ts3 hr
                  split at heqS
                  · exact absurd heqS (by simp)
                  · rename_i t hp
                    simp only [Except.ok.injEq, Prod.mk.injEq] at heqS
                    obtain ⟨-, hts3⟩ := heqS
                    subst hts3
                    exact consumed_trans (consumed_move hcol (by decide))
                      (ih _ _ _ _ (by trivial) hr)
              · simp only [Except.ok.injEq, Prod.mk.injEq] at heqS
                obtain ⟨-, hts3⟩ := heqS
                subst hts3
                exact consumed_refl _
            split at hok
            · exact absurd hok (by simp)
            · rename_i vI initv tsC heqI
              have cI : Consumed tsB tsC := by
                split at heqI
                · rename_i hasn
                  split at heqI
                  · exact absurd heqI (by simp)
                  · rename_i v o ts3 hr
                    split at heqI
                    · exact absurd heqI (by simp)
                    · rename_i t hp
                      simp only [Except.ok.injEq, Prod.mk.injEq] at heqI
                      obtain ⟨-, hts3⟩ := heqI
                      subst hts3
                      exact consumed_trans (consumed_move hasn (by decide))
                        (ih _ _ _ _ (by trivial) hr)
                · simp only [Except.ok.injEq, Prod.mk.injEq] at heqI
                  obtain ⟨-, hts3⟩ := heqI
                  subst hts3
                  exact consumed_refl _
              simp only [Except.ok.injEq, Prod.mk.injEq] at hok
              obtain ⟨-, hts⟩ := hok
              subst hts
              exact consumed_trans c0 (consumed_trans c1 (consumed_trans cS
                (consumed_trans cI (consumed_discard tsC))))
    | cond =>
      rw [parseFn] at hok
      dsimp only at hok
      split at hok
      · exact absurd hok (by simp)
      · rename_i v1 t1 tsA hq1
        have c1 : Consumed ts tsA := consumed_require (by decide) hq1
        split at hok
        · exact absurd hok (by simp)
        · rename_i v2 o2 tsB heq2
          have c2 : Consumed tsA tsB := ih _ _ _ _ (by trivial) heq2
          split at hok
          · exact absurd hok (by simp)
          · rename_i e2 ho2
            split at hok
            · exact absurd hok (by simp)
            · rename_i v3 t3 tsC hq3
              have c3 : Consumed tsB tsC := consumed_require (by decide) hq3
              split at hok
              · exact absurd hok (by simp)
              · rename_i v4 o4 tsD heq4
                have c4 : Consumed (discard_newlines tsC) tsD :=
                  ih _ _ _ _ (by trivial) heq4
                split at hok
                · exact absurd hok (by simp)
                · rename_i b4 ho4
                  split at hok
                  · exact absurd hok (by simp)
                  · rename_i v5 o5 tsE heq5
                    have c5 : Consumed tsD tsE := ih _ _ _ _ (by trivial) heq5
                    split at hok
                    · exact absurd hok (by simp)
                    · rename_i br5 ho5
                      split at hok
                      · exact absurd hok (by simp)
                      · rename_i vF fb tsF heqF
                        have cF : Consumed tsE tsF := by
                          split at heqF
                          · rename_i hels
                            split at heqF
                            · exact absurd heqF (by simp)
                            · rename_i v t tsX hq
                              split at heqF
                              · exact absurd heqF (by simp)
                              · rename_i vb ob tsY hrb
                                split at heqF
                                · exact absurd heqF (by simp)
                                · rename_i bb hob
                                  simp only [Except.ok.injEq, Prod.mk.injEq] at heqF
                                  obtain ⟨-, hts3⟩ := heqF
                                  subst hts3
                                  exact consumed_trans (consumed_move hels (by decide))
                                    (consumed_trans (consumed_require (by decide) hq)
                                      (consumed_trans (consumed_discard tsX)
                                        (ih _ _ _ _ (by trivial) hrb)))
                          · simp only [Except.ok.injEq, Prod.mk.injEq] at heqF
                            obtain ⟨-, hts3⟩ := heqF
                            subst hts3
                            exact consumed_refl _
                        simp only [Except.ok.injEq, Prod.mk.injEq] at hok
                        obtain ⟨-, hts⟩ := hok
                        subst hts
                        exact consumed_trans c1 (consumed_trans c2
                          (consumed_trans c3 (consumed_trans
                            (consumed_discard tsC) (consumed_trans c4
                              (consumed_trans c5 cF)))))
    | cond_elifs =>
      rw [parseFn] at hok
      dsimp only at hok
      by_cases helif : check ts [TokenKind.COND_ELIF] = true
      · rw [if_pos helif] at hok
        split at hok
        · exact absurd hok (by simp)
        · rename_i v1 o1 tsA heq1
          have c1 : Consumed (move_forward ts).2 tsA :=
            ih _ _ _ _ (by trivial) heq1
          split at hok
          · exact absurd hok (by simp)
          · rename_i e1 ho1
            split at hok
            · exact absurd hok (by simp)
            · rename_i v2 t2 tsB hq2
              have c2 : Consumed tsA tsB := consumed_require (by decide) hq2
              split at hok
              · exact absurd hok (by simp)
              · rename_i v3 o3 tsC heq3
                have c3 : Consumed (discard_newlines tsB) tsC :=
                  ih _ _ _ _ (by trivial) heq3
                split at hok
                · exact absurd hok (by simp)
                · rename_i b3 ho3
                  split at hok
                  · exact absurd hok (by simp)
                  · rename_i v4 o4 tsD heq4
                    have c4 : Consumed tsC tsD := ih _ _ _ _ (by trivial) heq4
                    split at hok
                    · exact absurd hok (by simp)
                    · rename_i br4 ho4
                      simp only [Except.ok.injEq, Prod.mk.injEq] at hok
                      obtain ⟨-, hts⟩ := hok
                      subst hts
                      exact consumed_trans (consumed_move helif (by decide))
                        (consumed_trans c1 (consumed_trans c2 (consumed_trans
                          (consumed_discard tsB) (consumed_trans c3 c4))))
      · rw [if_neg helif] at hok
        simp only [Except.ok.injEq, Prod.mk.injEq] at hok
        obtain ⟨-, hts⟩ := hok
        subst hts
        exact consumed_refl ts
    | loop =>
      rw [parseFn] at hok
      dsimp only at hok
      split at hok
      · exact absurd hok (by simp)
      · rename_i v1 t1 tsA hq1
        have c1 : Consumed ts tsA := consumed_require (by decide) hq1
        split at hok
        · exact absurd hok (by simp)
        · rename_i v2 o2 tsB heq2
          have c2 : Consumed tsA tsB := ih _ _ _ _ (by trivial) heq2
          split at hok
          · exact absurd hok (by simp)
          · rename_i e2 ho2
            split at hok
            · exact absurd hok (by simp)
            · rename_i v3 t3 tsC hq3
              have c3 : Consumed tsB tsC := consumed_require (by decide) hq3
              split at hok
              · exact absurd hok (by simp)
              · rename_i v4 o4 tsD heq4
                have c4 : Consumed (discard_newlines tsC) tsD :=
                  ih _ _ _ _ (by trivial) heq4
                split at hok
                · exact absurd hok (by simp)
                · rename_i b4 ho4
                  simp only [Except.ok.injEq, Prod.mk.injEq] at hok
                  obtain ⟨-, hts⟩ := hok
                  subst hts
                  exact consumed_trans c1 (consumed_trans c2 (consumed_trans c3
                    (consumed_trans (consumed_discard tsC) c4)))
    | iter =>
      rw [parseFn] at hok
      dsimp only at hok
      split at hok
      · exact absurd hok (by simp)
      · rename_i v1 t1 tsA hq1
        have c1 : Consumed ts tsA := consumed_require (by decide) hq1
        split at hok
        · exact absurd hok (by simp)
        · rename_i v2 var_tok tsB hq2
          have c2 : Consumed tsA tsB := consumed_require (by decide) hq2
          split at hok
          · exact absurd hok (by simp)
          · rename_i v3 t3 tsC hq3
            have c3 : Consumed tsB tsC := consumed_require (by decide) hq3
            split at hok
            · exact absurd hok (by simp)
            · rename_i v4 o4 tsD heq4
              have c4 : Consumed tsC tsD := ih _ _ _ _ (by trivial) heq4
              split at hok
              · exact absurd hok (by simp)
              · rename_i e4 ho4
                split at hok
                · exact absurd hok (by simp)
                · rename_i v5 t5 tsE hq5
                  have c5 : Consumed tsD tsE := consumed_require (by decide) hq5
                  split at hok
                  · exact absurd hok (by simp)
                  · rename_i v6 o6 tsF heq6
                    have c6 : Consumed (discard_newlines tsE) tsF :=
                      ih _ _ _ _ (by trivial) heq6
                    split at hok
                    · exact absurd hok (by simp)
                    · rename_i b6 ho6
                      simp only [Except.ok.injEq, Prod.mk.injEq] at hok
                      obtain ⟨-, hts⟩ := hok
                      subst hts
                      exact consumed_trans c1 (consumed_trans c2 (consumed_trans c3
                        (consumed_trans c4 (consumed_trans c5 (consumed_trans
                          (consumed_discard tsE) c6)))))
    | ret =>
      rw [parseFn] at hok
      dsimp only at hok
      split at hok
      · exact absurd hok (by simp)
      · rename_i v1 t1 tsA hq1
        have c1 : Consumed ts tsA := consumed_require (by decide) hq1
        split at hok
        · exact absurd hok (by simp)
        · rename_i vV retv tsB heqV
          have cV : Consumed tsA tsB := by
            split at heqV
            · split at heqV
              · exact absurd heqV (by simp)
              · rename_i v o ts3 hr
                split at heqV
                · exact absurd heqV (by simp)
                · rename_i t hp
                  simp only [Except.ok.injEq, Prod.mk.injEq] at heqV
                  obtain ⟨-, hts3⟩ := heqV
                  subst hts3
                  exact ih _ _ _ _ (by trivial) hr
            · simp only [Except.ok.injEq, Prod.mk.injEq] at heqV
              obtain ⟨-, hts3⟩ := heqV
              subst hts3
              exact consumed_refl _
          simp only [Except.ok.injEq, Prod.mk.injEq] at hok
          obtain ⟨-, hts⟩ := hok
          subst hts
          exact consumed_trans c1 (consumed_trans cV (consumed_discard tsB))
    | class_decl =>
      rw [parseFn] at hok
      dsimp only at hok
      split at hok
      · exact absurd hok (by simp)
      · rename_i v1 t1 tsA hq1
        have c1 : Consumed ts tsA := consumed_require (by decide) hq1
        split at hok
        · exact absurd hok (by simp)
        · rename_i v2 name_tok tsB hq2
          have c2 : Consumed tsA tsB := consumed_require (by decide) hq2
          split at hok
          · exact absurd hok (by simp)
          · rename_i v3 t3 tsC hq3
            have c3 : Consumed tsB tsC := consumed_require (by decide) hq3
            split at hok
            · exact absurd hok (by simp)
            · rename_i v4 o4 tsD heq4
              have c4 : Consumed (discard_newlines tsC) tsD :=
                ih _ _ _ _ (by trivial) heq4
              split at hok
              · exact absurd hok (by simp)
              · rename_i b4 ho4
                simp only [Except.ok.injEq, Prod.mk.injEq] at hok
                obtain ⟨-, hts⟩ := hok
                subst hts
                exact consumed_trans c1 (consumed_trans c2 (consumed_trans c3
                  (consumed_trans (consumed_discard tsC) c4)))
    | imp =>
      rw [parseFn] at hok
      dsimp only at hok
      by_cases hfrom : check ts [TokenKind.MOD_FROM] = true
      · rw [if_pos hfrom] at hok
        split at hok
        · exact absurd hok (by simp)
        · rename_i v1 mod_tok tsA hq1
          have c1 : Consumed (move_forward ts).2 tsA := consumed_require (by decide) hq1
          split at hok
          · exact absurd hok (by simp)
          · rename_i v2 t2 tsB hq2
            have c2 : Consumed tsA tsB := consumed_require (by decide) hq2
            split at hok
            · exact absurd hok (by simp)
            · rename_i v3 o3 tsC heq3
              have c3 : Consumed tsB tsC := ih _ _ _ _ (by trivial) heq3
              split at hok
              · exact absurd hok (by simp)
              · rename_i items3 ho3
                split at hok
                · exact absurd hok (by simp)
                · rename_i vA aliasv tsD heqA
                  have cA : Consumed tsC tsD := by
                    split at heqA
                    · rename_i hmas
                      split at heqA
                      · exact absurd heqA (by simp)
                      · rename_i v t tsX hq
                        simp only [Except.ok.injEq, Prod.mk.injEq] at heqA
                        obtain ⟨-, hts3⟩ := heqA
                        subst hts3
                        exact consumed_trans (consumed_move hmas (by decide))
                          (consumed_require (by decide) hq)
                    · simp only [Except.ok.injEq, Prod.mk.injEq] at heqA
                      obtain ⟨-, hts3⟩ := heqA
                      subst hts3
                      exact consumed_refl _
                  simp only [Except.ok.injEq, Prod.mk.injEq] at hok
                  obtain ⟨-, hts⟩ := hok
                  subst hts
                  exact consumed_trans (consumed_move hfrom (by decide))
                    (consumed_trans c1 (consumed_trans c2 (consumed_trans c3
                      (consumed_trans cA (consumed_discard tsD)))))
      · rw [if_neg hfrom] at hok
        split at hok
        · exact absurd hok (by simp)
        · rename_i v1 t1 tsA hq1
          have c1 : Consumed ts tsA := consumed_require (by decide) hq1
          split at hok
          · exact absurd hok (by simp)
          · rename_i v2 mod_tok tsB hq2
            have c2 : Consumed tsA tsB := consumed_require (by decide) hq2
            split at hok
            · exact absurd hok (by simp)
            · rename_i vA aliasv tsC heqA
              have cA : Consumed tsB tsC := by
                split at heqA
                · rename_i hmas
                  split at heqA
                  · exact absurd heqA (by simp)
                  · rename_i v t tsX hq
                    simp only [Except.ok.injEq, Prod.mk.injEq] at heqA
                    obtain ⟨-, hts3⟩ := heqA
                    subst hts3
                    exact consumed_trans (consumed_move hmas (by decide))
                      (consumed_require (by decide) hq)
                · simp only [Except.ok.injEq, Prod.mk.injEq] at heqA
                  obtain ⟨-, hts3⟩ := heqA
                  subst hts3
                  exact consumed_refl _
              simp only [Except.ok.injEq, Prod.mk.injEq] at hok
              obtain ⟨-, hts⟩ := hok
              subst hts
              exact consumed_trans c1 (consumed_trans c2
                (consumed_trans cA (consumed_discard tsC)))
    | imp_items_loop =>
      rw [parseFn] at hok
      dsimp only at hok
      split at hok
      · exact absurd hok (by simp)
      · rename_i v1 item_tok tsA hq1
        have c1 : Consumed ts tsA := consumed_require (by decide) hq1
        by_cases hcom : check tsA [TokenKind.PUNCT_COMMA] = true
        · rw [if_pos hcom] at hok
          cases hr2 : parseFn fuel PIn.imp_items_loop (move_forward tsA).2 with
          | error e => rw [hr2] at hok; exact absurd hok (by simp)
          | ok v2 =>
            obtain ⟨o2, tsB⟩ := v2
            rw [hr2] at hok
            dsimp only at hok
            cases ho2 : o2.asVals with
            | error e => rw [ho2] at hok; exact absurd hok (by simp)
            | ok rest2 =>
              rw [ho2] at hok
              dsimp only at hok
              simp only [Except.ok.injEq, Prod.mk.injEq] at hok
              obtain ⟨-, hts⟩ := hok
              subst hts
              exact consumed_trans c1 (consumed_trans
                (consumed_move hcom (by decide)) (ih _ _ _ _ (by trivial) hr2))
        · rw [if_neg hcom] at hok
          simp only [Except.ok.injEq, Prod.mk.injEq] at hok
          obtain ⟨-, hts⟩ := hok
          subst hts
          exact c1
    | block =>
      rw [parseFn] at hok
      dsimp only at hok
      by_cases hbr : check ts [TokenKind.GROUP_LBRACE] = true
      · rw [if_pos hbr] at hok
        split at hok
        · exact absurd hok (by simp)
        · rename_i v1 o1 tsA heq1
          have c1 : Consumed (discard_newlines (move_forward ts).2) tsA :=
            ih _ _ _ _ (by trivial) heq1
          split at hok
          · exact absurd hok (by simp)
          · rename_i l1 ho1
            split at hok
            · exact absurd hok (by simp)
            · rename_i v2 t2 tsB hq2
              have c2 : Consumed tsA tsB := consumed_require (by decide) hq2
              simp only [Except.ok.injEq, Prod.mk.injEq] at hok
              obtain ⟨-, hts⟩ := hok
              subst hts
              exact consumed_trans (consumed_move hbr (by decide))
                (consumed_trans (consumed_discard (move_forward ts).2)
                  (consumed_trans c1 (consumed_trans c2 (consumed_discard tsB))))
      · rw [if_neg hbr] at hok
        split at hok
        · exact absurd hok (by simp)
        · rename_i v1 t1 tsA hq1
          have c1 : Consumed ts tsA := consumed_require (by decide) hq1
          split at hok
          · exact absurd hok (by simp)
          · rename_i v2 o2 tsB heq2
            have c2 : Consumed tsA tsB := ih _ _ _ _ (by trivial) heq2
            split at hok
            · exact absurd hok (by simp)
            · rename_i l2 ho2
              simp only [Except.ok.injEq, Prod.mk.injEq] at hok
              obtain ⟨-, hts⟩ := hok
              subst hts
              by_cases hded : check tsB [TokenKind.DEDENT] = true
              · rw [if_pos hded]
                exact consumed_trans c1 (consumed_trans c2
                  (consumed_move hded (by decide)))
              · rw [if_neg hded]
                exact consumed_trans c1 c2
    | block_brace_loop =>
      rw [parseFn] at hok
      dsimp only at hok
      by_cases hc : check ts [TokenKind.GROUP_RBRACE, TokenKind.END] = true
      · rw [if_pos hc] at hok
        simp only [Except.ok.injEq, Prod.mk.injEq] at hok
        obtain ⟨-, hts⟩ := hok
        subst hts
        exact consumed_refl ts
      · rw [if_neg hc] at hok
        split at hok
        · exact absurd hok (by simp)
        · rename_i v1 o1 tsA heq1
          have c1 : Consumed ts tsA := ih _ _ _ _ (by trivial) heq1
          split at hok
          · exact absurd hok (by simp)
          · rename_i s1 ho1
            split at hok
            · exact absurd hok (by simp)
            · rename_i v2 o2 tsB heq2
              have c2 : Consumed (discard_newlines tsA) tsB :=
                ih _ _ _ _ (by trivial) heq2
              split at hok
              · exact absurd hok (by simp)
              · rename_i l2 ho2
                simp only [Except.ok.injEq, Prod.mk.injEq] at hok
                obtain ⟨-, hts⟩ := hok
                subst hts
                exact consumed_trans c1 (consumed_trans (consumed_discard tsA) c2)
    | block_indent_loop =>
      rw [parseFn] at hok
      dsimp only at hok
      by_cases hc : check ts [TokenKind.DEDENT, TokenKind.END] = true
      · rw [if_pos hc] at hok
        simp only [Except.ok.injEq, Prod.mk.injEq] at hok
        obtain ⟨-, hts⟩ := hok
        subst hts
        exact consumed_refl ts
      · rw [if_neg hc] at hok
        split at hok
        · exact absurd hok (by simp)
        · rename_i v1 o1 tsA heq1
          have c1 : Consumed ts tsA := ih _ _ _ _ (by trivial) heq1
          split at hok
          · exact absurd hok (by simp)
          · rename_i s1 ho1
            split at hok
            · exact absurd hok (by simp)
            · rename_i v2 o2 tsB heq2
              have c2 : Consumed (discard_newlines tsA) tsB :=
                ih _ _ _ _ (by trivial) heq2
              split at hok
              · exact absurd hok (by simp)
              · rename_i l2 ho2
                simp only [Except.ok.injEq, Prod.mk.injEq] at hok
                obtain ⟨-, hts⟩ := hok
                subst hts
                exact consumed_trans c1 (consumed_trans (consumed_discard tsA) c2)
    | prec mp =>
      have hmp : (0 : Int) ≤ mp := hpre
      rw [parseFn] at hok
      split at hok
      · exact absurd hok (by simp)
      · rename_i v1 o1 tsA heq1
        have c1 : Consumed ts tsA := ih _ _ _ _ (by trivial) heq1
        split at hok
        · exact absurd hok (by simp)
        · rename_i e1 ho1
          exact consumed_trans c1 (ih _ _ _ _ (by exact hmp) hok)
    | prec_loop mp left =>
      have hmp : (0 : Int) ≤ mp := hpre
      rw [parseFn] at hok
      dsimp only at hok
      split at hok
      · simp only [Except.ok.injEq, Prod.mk.injEq] at hok
        obtain ⟨-, hts⟩ := hok
        subst hts
        exact consumed_refl ts
      · rename_i tok hcur
        by_cases hplt : get_precedence tok.kind < mp
        · rw [if_pos hplt] at hok
          simp only [Except.ok.injEq, Prod.mk.injEq] at hok
          obtain ⟨-, hts⟩ := hok
          subst hts
          exact consumed_refl ts
        · rw [if_neg hplt] at hok
          have hp0 : (0 : Int) ≤ get_precedence tok.kind :=
            le_trans hmp (not_lt.mp hplt)
          have c0 : Consumed ts (move_forward ts).2 :=
            consumed_move_head hcur (prec_nonneg_ne hp0)
          split at hok
          · exact absurd hok (by simp)
          · rename_i v1 o1 tsA heq1
            have c1 : Consumed (move_forward ts).2 tsA :=
              ih _ _ _ _ (by exact le_trans hp0 (by omega)) heq1
            split at hok
            · exact absurd hok (by simp)
            · rename_i e1 ho1
              exact consumed_trans c0 (consumed_trans c1
                (ih _ _ _ _ (by exact hmp) hok))
    | unary =>
      rw [parseFn] at hok
      dsimp only at hok
      by_cases hchk : check ts [TokenKind.LOGIC_NOT, TokenKind.ARITH_SUB,
          TokenKind.ARITH_ADD, TokenKind.BIT_NOT] = true
      · rw [if_pos hchk] at hok
        split at hok
        · exact absurd hok (by simp)
        · rename_i op_tok hcur
          split at hok
          · exact absurd hok (by simp)
          · rename_i v1 o1 tsA heq1
            have c1 : Consumed (move_forward ts).2 tsA :=
              ih _ _ _ _ (by trivial) heq1
            split at hok
            · exact absurd hok (by simp)
            · rename_i e1 ho1
              simp only [Except.ok.injEq, Prod.mk.injEq] at hok
              obtain ⟨-, hts⟩ := hok
              subst hts
              exact consumed_trans (consumed_move hchk (by decide)) c1
      · rw [if_neg hchk] at hok
        exact ih _ _ _ _ (by trivial) hok
    | post =>
      rw [parseFn] at hok
      split at hok
      · exact absurd hok (by simp)
      · rename_i v1 o1 tsA heq1
        have c1 : Consumed ts tsA := ih _ _ _ _ (by trivial) heq1
        split at hok
        · exact absurd hok (by simp)
        · rename_i e1 ho1
          exact consumed_trans c1 (ih _ _ _ _ (by trivial) hok)
    | post_loop e =>
      rw [parseFn] at hok
      dsimp only at hok
      by_cases hlp : check ts [TokenKind.GROUP_LPAREN] = true
      · rw [if_pos hlp] at hok
        split at hok
        · exact absurd hok (by simp)
        · rename_i v1 o1 tsA heq1
          have c1 : Consumed (move_forward ts).2 tsA :=
            ih _ _ _ _ (by trivial) heq1
          split at hok
          · exact absurd hok (by simp)
          · rename_i args1 ho1
            split at hok
            · exact absurd hok (by simp)
            · rename_i v2 t2 tsB hq2
              have c2 : Consumed tsA tsB := consumed_require (by decide) hq2
              exact consumed_trans (consumed_move hlp (by decide))
                (consumed_trans c1 (consumed_trans c2
                  (ih _ _ _ _ (by trivial) hok)))
      · rw [if_neg hlp] at hok
        by_cases hls : check ts [TokenKind.GROUP_LSQUARE] = true
        · rw [if_pos hls] at hok
          split at hok
          · exact absurd hok (by simp)
          · rename_i v1 o1 tsA heq1
            have c1 : Consumed (move_forward ts).2 tsA :=
              ih _ _ _ _ (by trivial) heq1
            split at hok
            · exact absurd hok (by simp)
            · rename_i idx1 ho1
              split at hok
              · exact absurd hok (by simp)
              · rename_i v2 t2 tsB hq2
                have c2 : Consumed tsA tsB := consumed_require (by decide) hq2
                exact consumed_trans (consumed_move hls (by decide))
                  (consumed_trans c1 (consumed_trans c2
                    (ih _ _ _ _ (by trivial) hok)))
        · rw [if_neg hls] at hok
          by_cases hdot : check ts [TokenKind.PUNCT_DOT] = true
          · rw [if_pos hdot] at hok
            split at hok
            · exact absurd hok (by simp)
            · rename_i v1 attr_tok tsA hq1
              have c1 : Consumed (move_forward ts).2 tsA :=
                consumed_require (by decide) hq1
              exact consumed_trans (consumed_move hdot (by decide))
                (consumed_trans c1 (ih _ _ _ _ (by trivial) hok))
          · rw [if_neg hdot] at hok
            simp only [Except.ok.injEq, Prod.mk.injEq] at hok
            obtain ⟨-, hts⟩ := hok
            subst hts
            exact consumed_refl ts
    | call_args =>
      rw [parseFn] at hok
      by_cases hc : check ts [TokenKind.GROUP_RPAREN] = true
      · rw [if_pos hc] at hok
        simp only [Except.ok.injEq, Prod.mk.injEq] at hok
        obtain ⟨-, hts⟩ := hok
        subst hts
        exact consumed_refl ts
      · rw [if_neg hc] at hok
        exact ih _ _ _ _ (by trivial) hok
    | call_args_loop =>
      rw [parseFn] at hok
      dsimp only at hok
      split at hok
      · exact absurd hok (by simp)
      · rename_i v1 o1 tsA heq1
        have c1 : Consumed ts tsA := ih _ _ _ _ (by trivial) heq1
        split at hok
        · exact absurd hok (by simp)
        · rename_i a1 ho1
          by_cases hcom : check tsA [TokenKind.PUNCT_COMMA] = true
          · rw [if_pos hcom] at hok
            cases hr2 : parseFn fuel PIn.call_args_loop (move_forward tsA).2 with
            | error e => rw [hr2] at hok; exact absurd hok (by simp)
            | ok v2 =>
              obtain ⟨o2, tsB⟩ := v2
              rw [hr2] at hok
              dsimp only at hok
              cases ho2 : o2.asExprs with
              | error e => rw [ho2] at hok; exact absurd hok (by simp)
              | ok rest2 =>
                rw [ho2] at hok
                dsimp only at hok
                simp only [Except.ok.injEq, Prod.mk.injEq] at hok
                obtain ⟨-, hts⟩ := hok
                subst hts
                exact consumed_trans c1 (consumed_trans
                  (consumed_move hcom (by decide)) (ih _ _ _ _ (by trivial) hr2))
          · rw [if_neg hcom] at hok
            simp only [Except.ok.injEq, Prod.mk.injEq] at hok
            obtain ⟨-, hts⟩ := hok
            subst hts
            exact c1
    | atomic =>
      rw [parseFn] at hok
      dsimp only at hok
      split at hok
      · exact absurd hok (by simp)
      · rename_i tok hcur
        by_cases h1 : tok.kind = TokenKind.NUM_INT
        · rw [if_pos h1] at hok
          simp only [Except.ok.injEq, Prod.mk.injEq] at hok
          obtain ⟨-, hts⟩ := hok
          subst hts
          exact consumed_move_head hcur (by rw [h1]; exact ⟨by decide, by decide⟩)
        rw [if_neg h1] at hok
        by_cases h2 : tok.kind = TokenKind.NUM_FLOAT
        · rw [if_pos h2] at hok
          simp only [Except.ok.injEq, Prod.mk.injEq] at hok
          obtain ⟨-, hts⟩ := hok
          subst hts
          exact consumed_move_head hcur (by rw [h2]; exact ⟨by decide, by decide⟩)
        rw [if_neg h2] at hok
        by_cases h3 : tok.kind = TokenKind.TEXT
        · rw [if_pos h3] at hok
          simp only [Except.ok.injEq, Prod.mk.injEq] at hok
          obtain ⟨-, hts⟩ := hok
          subst hts
          exact consumed_move_head hcur (by rw [h3]; exact ⟨by decide, by decide⟩)
        rw [if_neg h3] at hok
        by_cases h4 : tok.kind = TokenKind.BOOL_T
        · rw [if_pos h4] at hok
          simp only [Except.ok.injEq, Prod.mk.injEq] at hok
          obtain ⟨-, hts⟩ := hok
          subst hts
          exact consumed_move_head hcur (by rw [h4]; exact ⟨by decide, by decide⟩)
        rw [if_neg h4] at hok
        by_cases h5 : tok.kind = TokenKind.BOOL_F
        · rw [if_pos h5] at hok
          simp only [Except.ok.injEq, Prod.mk.injEq] at hok
          obtain ⟨-, hts⟩ := hok
          subst hts
          exact consumed_move_head hcur (by rw [h5]; exact ⟨by decide, by decide⟩)
        rw [if_neg h5] at hok
        by_cases h6 : tok.kind = TokenKind.NULL
        · rw [if_pos h6] at hok
          simp only [Except.ok.injEq, Prod.mk.injEq] at hok
          obtain ⟨-, hts⟩ := hok
          subst hts
          exact consumed_move_head hcur (by rw [h6]; exact ⟨by decide, by decide⟩)
        rw [if_neg h6] at hok
        by_cases h7 : tok.kind = TokenKind.NAME
        · rw [if_pos h7] at hok
          simp only [Except.ok.injEq, Prod.mk.injEq] at hok
          obtain ⟨-, hts⟩ := hok
          subst hts
          exact consumed_move_head hcur (by rw [h7]; exact ⟨by decide, by decide⟩)
        rw [if_neg h7] at hok
        by_cases h8 : tok.kind = TokenKind.GROUP_LPAREN
        · rw [if_pos h8] at hok
          split at hok
          · exact absurd hok (by simp)
          · rename_i v1 o1 tsA heq1
            have c1 : Consumed (move_forward ts).2 tsA :=
              ih _ _ _ _ (by trivial) heq1
            split at hok
            · exact absurd hok (by simp)
            · rename_i e1 ho1
              split at hok
              · exact absurd hok (by simp)
              · rename_i v2 t2 tsB hq2
                have c2 : Consumed tsA tsB := consumed_require (by decide) hq2
                simp only [Except.ok.injEq, Prod.mk.injEq] at hok
                obtain ⟨-, hts⟩ := hok
                subst hts
                refine consumed_trans (consumed_move_head hcur ?_)
                  (consumed_trans c1 c2)
                rw [h8]
                exact ⟨by decide, by decide⟩
        rw [if_neg h8] at hok
        by_cases h9 : tok.kind = TokenKind.GROUP_LSQUARE
        · rw [if_pos h9] at hok
          exact ih _ _ _ _ (by trivial) hok
        rw [if_neg h9] at hok
        exact absurd hok (by simp)
    | array =>
      rw [parseFn] at hok
      dsimp only at hok
      split at hok
      · exact absurd hok (by simp)
      · rename_i v1 t1 tsA hq1
        have c1 : Consumed ts tsA := consumed_require (by decide) hq1
        split at hok
        · exact absurd hok (by simp)
        · rename_i vI items tsB heqI
          have cI : Consumed tsA tsB := by
            split at heqI
            · split at heqI
              · exact absurd heqI (by simp)
              · rename_i v o ts3 hr
                split at heqI
                · exact absurd heqI (by simp)
                · rename_i t hp
                  simp only [Except.ok.injEq, Prod.mk.injEq] at heqI
                  obtain ⟨-, hts3⟩ := heqI
                  subst hts3
                  exact ih _ _ _ _ (by trivial) hr
            · simp only [Except.ok.injEq, Prod.mk.injEq] at heqI
              obtain ⟨-, hts3⟩ := heqI
              subst hts3
              exact consumed_refl _
          split at hok
          · exact absurd hok (by simp)
          · rename_i v2 t2 tsC hq2
            have c2 : Consumed tsB tsC := consumed_require (by decide) hq2
            simp only [Except.ok.injEq, Prod.mk.injEq] at hok
            obtain ⟨-, hts⟩ := hok
            subst hts
            exact consumed_trans c1 (consumed_trans cI c2)
    | array_items_loop =>
      rw [parseFn] at hok
      dsimp only at hok
      split at hok
      · exact absurd hok (by simp)
      · rename_i v1 o1 tsA heq1
        have c1 : Consumed ts tsA := ih _ _ _ _ (by trivial) heq1
        split at hok
        · exact absurd hok (by simp)
        · rename_i a1 ho1
          by_cases hcom : check tsA [TokenKind.PUNCT_COMMA] = true
          · rw [if_pos hcom] at hok
            cases hr2 : parseFn fuel PIn.array_items_loop (move_forward tsA).2 with
            | error e => rw [hr2] at hok; exact absurd hok (by simp)
            | ok v2 =>
              obtain ⟨o2, tsB⟩ := v2
              rw [hr2] at hok
              dsimp only at hok
              cases ho2 : o2.asExprs with
              | error e => rw [ho2] at hok; exact absurd hok (by simp)
              | ok rest2 =>
                rw [ho2] at hok
                dsimp only at hok
                simp only [Except.ok.injEq, Prod.mk.injEq] at hok
                obtain ⟨-, hts⟩ := hok
                subst hts
                exact consumed_trans c1 (consumed_trans
                  (consumed_move hcom (by decide)) (ih _ _ _ _ (by trivial) hr2))
          · rw [if_neg hcom] at hok
            simp only [Except.ok.injEq, Prod.mk.injEq] at hok
            obtain ⟨-, hts⟩ := hok
            subst hts
            exact c1
    | expr =>
      rw [parseFn] at hok
      exact ih _ _ _ _ (by exact le_refl (0 : Int)) hok
    | type_spec =>
      rw [parseFn] at hok
      split at hok
      · exact absurd hok (by simp)
      · rename_i v1 name_tok tsA hq1
        simp only [Except.ok.injEq, Prod.mk.injEq] at hok
        obtain ⟨-, hts⟩ := hok
        subst hts
        exact consumed_require (by decide) hq1

/-- The top-level tree parse stops only at the end of the token list or at
an `END` token. -/
theorem parseFn_tree_end :
    ∀ (fuel : Nat) (ts : List CodeToken) (out : POut) (ts' : List CodeToken),
      parseFn fuel PIn.tree ts = .ok (out, ts') →
      ts' = [] ∨ ∃ t r, ts' = t :: r ∧ t.kind = TokenKind.END := by
  intro fuel
  induction fuel with
  | zero => intro ts out ts' hok; simp [parseFn] at hok
  | succ fuel ih =>
    intro ts out ts' hok
    rw [parseFn] at hok
    split at hok
    · rename_i hcur
      simp only [Except.ok.injEq, Prod.mk.injEq] at hok
      obtain ⟨-, hts⟩ := hok
      subst hts
      cases hl : discard_newlines ts with
      | nil => left; rfl
      | cons a l => rw [hl] at hcur; exact absurd hcur (by simp [current])
    · rename_i t hcur
      split at hok
      · rename_i hend
        simp only [Except.ok.injEq, Prod.mk.injEq] at hok
        obtain ⟨-, hts⟩ := hok
        subst hts
        right
        cases hl : discard_newlines ts with
        | nil => rw [hl] at hcur; exact absurd hcur (by simp [current])
        | cons a l =>
          rw [hl] at hcur
          have ha : a = t := by simpa [current] using hcur
          exact ⟨t, l, by rw [ha], hend⟩
      · split at hok
        · exact absurd hok (by simp)
        · rename_i v1 o1 tsA heq1
          split at hok
          · exact absurd hok (by simp)
          · rename_i s1 ho1
            split at hok
            · exact absurd hok (by simp)
            · rename_i v2 o2 tsB heq2
              split at hok
              · exact absurd hok (by simp)
              · rename_i l2 ho2
                simp only [Except.ok.injEq, Prod.mk.injEq] at hok
                obtain ⟨-, hts⟩ := hok
                subst hts
                exact ih _ _ _ heq2

/-- A token list with no `END` member has `countKind END` zero. -/
theorem countKind_end_zero {l : List CodeToken}
    (h : ∀ t ∈ l, t.kind ≠ TokenKind.END) :
    countKind TokenKind.END l = 0 := by
  rw [countKind, List.countP_eq_zero]
  intro t ht
  simpa using h t ht

/-- C10 (amended): `;` is in the one-character operator table, yet whenever a
scan succeeds and its token list contains a semicolon token, the tree builder
fails for every fuel: no parser rule consumes a semicolon. -/
theorem semicolon_never_parses :
    single_ops.lookup ';' = some TokenKind.PUNCT_SEMI ∧
    ∀ (s : String) (ts : List CodeToken), scan s = .ok ts →
      (∃ t ∈ ts, t.kind = TokenKind.PUNCT_SEMI) →
      ∀ fuel, ¬ ∃ p, build_tree fuel ts = .ok p := by
  refine ⟨by rfl, ?_⟩
  intro s ts hscan hsemi fuel hex
  obtain ⟨p, hp⟩ := hex
  rw [build_tree] at hp
  cases htree : parseFn fuel PIn.tree ts with
  | error e => rw [htree] at hp; exact absurd hp (by simp)
  | ok v =>
    obtain ⟨o, ts'⟩ := v
    have hcons : Consumed ts ts' :=
      parseFn_consumed fuel PIn.tree ts o ts' (by trivial) htree
    have hend := parseFn_tree_end fuel ts o ts' htree
    obtain ⟨t, htmem, htk⟩ := hsemi
    obtain ⟨pre, hsplit, hclean⟩ := hcons
    rw [scan] at hscan
    obtain ⟨hcount, ⟨lastT, hlast, hlastk⟩, -⟩ :=
      tokenize_ok_spec (2 * s.data.length + 2) true s.data 1 1 [0] ts
        (by simp) hscan
    rw [hsplit] at htmem
    rcases List.mem_append.mp htmem with hmem | hmem
    · exact absurd htk (hclean t hmem).1
    · have hpre0 : countKind TokenKind.END pre = 0 :=
        countKind_end_zero (fun x hx => (hclean x hx).2)
      rcases hend with rfl | ⟨h, r, rfl, hk⟩
      · simp at hmem
      · rw [hsplit, countKind_append, hpre0, countKind_cons, if_pos hk] at hcount
        have hr0 : countKind TokenKind.END r = 0 := by omega
        have hrnil : r = [] := by
          cases hrc : r with
          | nil => rfl
          | cons b rb =>
            exfalso
            have hlast2 : (pre ++ h :: r).getLast? = some lastT := by
              rw [← hsplit]; exact hlast
            rw [List.getLast?_append_of_ne_nil pre (by simp)] at hlast2
            rw [hrc] at hlast2
            rw [show ((h :: b :: rb).getLast? = (b :: rb).getLast?) from rfl]
              at hlast2
            have hlmem : lastT ∈ b :: rb := List.mem_of_getLast?_eq_some hlast2
            rw [hrc] at hr0
            rw [countKind, List.countP_eq_zero] at hr0
            have := hr0 lastT hlmem
            simp [hlastk] at this
        subst hrnil
        rcases List.mem_singleton.mp hmem with rfl
        rw [htk] at hk
        exact absurd hk (by decide)

/-- C10: the claim's premise "the scan succeeds" fails: `";@"` contains a
semicolon outside any string literal or comment, yet the scan raises the
unknown-character lexical error at `'@'`. -/
theorem semicolon_scan_can_fail :
    (∃ c ∈ ";@".data, c = ';') ∧
    scan ";@" = .error (ScanErr.badChar '@' 1 2) :=
  ⟨⟨';', by decide, rfl⟩, rfl⟩

/-- Witness for C10 at the concrete source `";"`. -/
theorem semicolon_never_parses_witness :
    scan ";" = .ok [⟨TokenKind.PUNCT_SEMI, ";", Val.str ";", 1, 1⟩,
                    ⟨TokenKind.END, "", Val.none, 1, 2⟩] ∧
    (∃ t ∈ [(⟨TokenKind.PUNCT_SEMI, ";", Val.str ";", 1, 1⟩ : CodeToken),
            ⟨TokenKind.END, "", Val.none, 1, 2⟩],
       t.kind = TokenKind.PUNCT_SEMI) ∧
    ¬ ∃ p, build_tree 128
        [(⟨TokenKind.PUNCT_SEMI, ";", Val.str ";", 1, 1⟩ : CodeToken),
         ⟨TokenKind.END, "", Val.none, 1, 2⟩] = .ok p :=
  ⟨by rfl,
   ⟨⟨TokenKind.PUNCT_SEMI, ";", Val.str ";", 1, 1⟩, by simp, rfl⟩,
   semicolon_never_parses.2 ";" _ (by rfl)
     ⟨⟨TokenKind.PUNCT_SEMI, ";", Val.str ";", 1, 1⟩, by simp, rfl⟩ 128⟩

/-- Character-level line state for the amended newline-count claim: a `'\n'`
is counted exactly when it ends a line that carried at least one token —
i.e. it is met outside a string literal and outside a blank or
comment-only line. -/
inductive NLSt where
  | lineStart : NLSt
  | inLine : NLSt
  | commentTok : NLSt
  | commentBlank : NLSt
  | str (q : Char) : NLSt
  | strEsc (q : Char) : NLSt
  deriving DecidableEq, Repr

/-- Count the newline characters of the source that terminate token-bearing
lines: skip `'\n'` at line starts (blank lines), after a line-start comment,
and inside string literals (including escaped); count it in mid-line
position and after a mid-line comment. -/
def spec_nl_count : NLSt → List Char → Nat
  | _, [] => 0
  | NLSt.lineStart, c :: r =>
    if c = ' ' ∨ c = '\t' then spec_nl_count NLSt.lineStart r
    else if c = '\n' then spec_nl_count NLSt.lineStart r
    else if c = '#' then spec_nl_count NLSt.commentBlank r
    else if c = '"' ∨ c = '\'' then spec_nl_count (NLSt.str c) r
    else spec_nl_count NLSt.inLine r
  | NLSt.inLine, c :: r =>
    if c = '\n' then 1 + spec_nl_count NLSt.lineStart r
    else if c = '#' then spec_nl_count NLSt.commentTok r
    else if c = '"' ∨ c = '\'' then spec_nl_count (NLSt.str c) r
    else spec_nl_count NLSt.inLine r
  | NLSt.commentTok, c :: r =>
    if c = '\n' then 1 + spec_nl_count NLSt.lineStart r
    else spec_nl_count NLSt.commentTok r
  | NLSt.commentBlank, c :: r =>
    if c = '\n' then spec_nl_count NLSt.lineStart r
    else spec_nl_count NLSt.commentBlank r
  | NLSt.str q, c :: r =>
    if c = q then spec_nl_count NLSt.inLine r
    else if c = '\\' then spec_nl_count (NLSt.strEsc q) r
    else spec_nl_count (NLSt.str q) r
  | NLSt.strEsc q, _ :: r => spec_nl_count (NLSt.str q) r

theorem spec_nl_nil (st : NLSt) : spec_nl_count st [] = 0 := by
  cases st <;> rfl

theorem spec_inLine_plain {c : Char} (r : List Char) (hn : ¬(c = '\n'))
    (hc : ¬(c = '#')) (hq : ¬(c = '"' ∨ c = '\'')) :
    spec_nl_count NLSt.inLine (c :: r) = spec_nl_count NLSt.inLine r := by
  rw [spec_nl_count, if_neg hn, if_neg hc, if_neg hq]

theorem spec_lineStart_inLine {c : Char} (r : List Char)
    (hws : ¬(c = ' ' ∨ c = '\t')) (hn : ¬(c = '\n')) (hc : ¬(c = '#')) :
    spec_nl_count NLSt.lineStart (c :: r) =
      spec_nl_count NLSt.inLine (c :: r) := by
  by_cases hq : c = '"' ∨ c = '\''
  · rw [spec_nl_count, if_neg hws, if_neg hn, if_neg hc, if_pos hq,
      spec_nl_count, if_neg hn, if_neg hc, if_pos hq]
  · rw [spec_nl_count, if_neg hws, if_neg hn, if_neg hc, if_neg hq,
      spec_inLine_plain r hn hc hq]

theorem spec_lineStart_nl (r : List Char) :
    spec_nl_count NLSt.lineStart ('\n' :: r) =
      spec_nl_count NLSt.lineStart r := by
  rw [spec_nl_count, if_neg (by decide), if_pos rfl]

theorem spec_lineStart_comment (r : List Char) :
    spec_nl_count NLSt.lineStart ('#' :: r) =
      spec_nl_count NLSt.commentBlank r := by
  rw [spec_nl_count, if_neg (by decide), if_neg (by decide), if_pos rfl]

theorem spec_inLine_nl (r : List Char) :
    spec_nl_count NLSt.inLine ('\n' :: r) =
      1 + spec_nl_count NLSt.lineStart r := by
  rw [spec_nl_count, if_pos rfl]

theorem spec_inLine_comment (r : List Char) :
    spec_nl_count NLSt.inLine ('#' :: r) =
      spec_nl_count NLSt.commentTok r := by
  rw [spec_nl_count, if_neg (by decide), if_pos rfl]

theorem spec_inLine_quote {c : Char} (hq : c = '"' ∨ c = '\'') (r : List Char) :
    spec_nl_count NLSt.inLine (c :: r) = spec_nl_count (NLSt.str c) r := by
  rcases hq with rfl | rfl
  · rw [spec_nl_count, if_neg (by decide), if_neg (by decide),
      if_pos (Or.inl rfl)]
  · rw [spec_nl_count, if_neg (by decide), if_neg (by decide),
      if_pos (Or.inr rfl)]

theorem spec_commentTok_nl (r : List Char) :
    spec_nl_count NLSt.commentTok ('\n' :: r) =
      1 + spec_nl_count NLSt.lineStart r := by
  rw [spec_nl_count, if_pos rfl]

theorem spec_commentBlank_nl (r : List Char) :
    spec_nl_count NLSt.commentBlank ('\n' :: r) =
      spec_nl_count NLSt.lineStart r := by
  rw [spec_nl_count, if_pos rfl]

/-- A cons whose head is not of the counted kind leaves the count alone. -/
theorem countKind_cons_ne {k : Nat} {t : CodeToken} (ts : List CodeToken)
    (h : t.kind ≠ k) : countKind k (t :: ts) = countKind k ts := by
  rw [countKind_cons, if_neg h, Nat.add_zero]

/-- `handle_line_indent` emits only INDENT/DEDENT tokens, never NEWLINE. -/
theorem handle_line_indent_nl (levels : List Nat) (spaces row : Nat)
    (h : levels ≠ []) :
    countKind TokenKind.NEWLINE (handle_line_indent levels spaces row).2 = 0 := by
  unfold handle_line_indent
  by_cases hgt : spaces > levels.headD 0
  · rw [if_pos hgt]
    rfl
  · rw [if_neg hgt]
    rw [countKind, List.countP_eq_zero]
    intro t ht
    rw [(dedent_pops_spec levels spaces row h).2.1 t ht]
    decide

/-- The leading-whitespace skip at line start does not change the count
and stops at a non-whitespace character. -/
theorem take_indent_ws_spec :
    ∀ (l : List Char) (col acc s : Nat) (l' : List Char) (col' : Nat),
      take_indent_ws l col acc = some (s, l', col') →
      spec_nl_count NLSt.lineStart l = spec_nl_count NLSt.lineStart l' ∧
      ∀ c r, l' = c :: r → ¬(c = ' ' ∨ c = '\t') := by
  intro l
  induction l with
  | nil => intro col acc s l' col' h; simp [take_indent_ws] at h
  | cons c rest ih =>
    intro col acc s l' col' h
    rw [take_indent_ws] at h
    by_cases hsp : c = ' '
    · rw [if_pos hsp] at h
      obtain ⟨h1, h2⟩ := ih _ _ _ _ _ h
      refine ⟨?_, h2⟩
      rw [spec_nl_count, if_pos (Or.inl hsp)]
      exact h1
    · rw [if_neg hsp] at h
      by_cases htb : c = '\t'
      · rw [if_pos htb] at h
        obtain ⟨h1, h2⟩ := ih _ _ _ _ _ h
        refine ⟨?_, h2⟩
        rw [spec_nl_count, if_pos (Or.inr htb)]
        exact h1
      · rw [if_neg htb] at h
        simp only [Option.some.injEq, Prod.mk.injEq] at h
        obtain ⟨-, hl', -⟩ := h
        subst hl'
        refine ⟨rfl, ?_⟩
        intro c' r' hcr
        injection hcr with h1 h2
        subst h1
        rintro (h | h)
        · exact hsp h
        · exact htb h

/-- The comment skip does not change the count (in either comment state)
and stops at end of input or at a newline. -/
theorem skip_comment_spec (st : NLSt)
    (hst : st = NLSt.commentTok ∨ st = NLSt.commentBlank) :
    ∀ (l : List Char) (col : Nat),
      spec_nl_count st (skip_comment l col).1 = spec_nl_count st l ∧
      ((skip_comment l col).1 = [] ∨ ∃ r, (skip_comment l col).1 = '\n' :: r) := by
  intro l
  induction l with
  | nil => intro col; exact ⟨rfl, Or.inl rfl⟩
  | cons c rest ih =>
    intro col
    rw [skip_comment]
    by_cases hnl : c = '\n'
    · rw [if_pos hnl]
      exact ⟨rfl, Or.inr ⟨rest, by rw [hnl]⟩⟩
    · rw [if_neg hnl]
      obtain ⟨h1, h2⟩ := ih (col + 1)
      refine ⟨?_, h2⟩
      rw [h1]
      rcases hst with rfl | rfl
      · rw [spec_nl_count, if_neg hnl]
      · rw [spec_nl_count, if_neg hnl]

/-- Characters consumed by the numeric loop are digits or dots; they keep
the automaton in mid-line state. -/
theorem digit_plain {c : Char} (h : c.isDigit ∨ c = '.') :
    ¬(c = '\n') ∧ ¬(c = '#') ∧ ¬(c = '"' ∨ c = '\'') := by
  rcases h with h | h
  · refine ⟨?_, ?_, ?_⟩
    · rintro rfl; exact absurd h (by decide)
    · rintro rfl; exact absurd h (by decide)
    · rintro (rfl | rfl) <;> exact absurd h (by decide)
  · subst h; exact ⟨by decide, by decide, by decide⟩

theorem alnum_plain {c : Char} (h : c.isAlphanum ∨ c = '_') :
    ¬(c = '\n') ∧ ¬(c = '#') ∧ ¬(c = '"' ∨ c = '\'') := by
  rcases h with h | h
  · refine ⟨?_, ?_, ?_⟩
    · rintro rfl; exact absurd h (by decide)
    · rintro rfl; exact absurd h (by decide)
    · rintro (rfl | rfl) <;> exact absurd h (by decide)
  · subst h; exact ⟨by decide, by decide, by decide⟩

theorem scan_numeric_loop_spec :
    ∀ (l : List Char) (col : Nat) (buf : List Char) (hd : Bool),
      spec_nl_count NLSt.inLine (scan_numeric_loop l col buf hd).2.2.1 =
        spec_nl_count NLSt.inLine l := by
  intro l
  induction l with
  | nil => intro col buf hd; rfl
  | cons c rest ih =>
    intro col buf hd
    rw [scan_numeric_loop]
    by_cases hdig : c.isDigit ∨ c = '.'
    · rw [if_pos hdig]
      by_cases hstop : c = '.' ∧ hd = true
      · rw [if_pos hstop]
      · rw [if_neg hstop]
        rw [ih]
        obtain ⟨hn, hc, hq⟩ := digit_plain hdig
        rw [spec_inLine_plain rest hn hc hq]
    · rw [if_neg hdig]

theorem scan_identifier_loop_spec :
    ∀ (l : List Char) (col : Nat) (buf : List Char),
      spec_nl_count NLSt.inLine (scan_identifier_loop l col buf).2.1 =
        spec_nl_count NLSt.inLine l := by
  intro l
  induction l with
  | nil => intro col buf; rfl
  | cons c rest ih =>
    intro col buf
    rw [scan_identifier_loop]
    by_cases hal : c.isAlphanum ∨ c = '_'
    · rw [if_pos hal]
      rw [ih]
      obtain ⟨hn, hc, hq⟩ := alnum_plain hal
      rw [spec_inLine_plain rest hn hc hq]
    · rw [if_neg hal]

theorem spec_str_close {q c : Char} (h : c = q) (r : List Char) :
    spec_nl_count (NLSt.str q) (c :: r) = spec_nl_count NLSt.inLine r := by
  rw [spec_nl_count, if_pos h]

theorem spec_str_esc {q c : Char} (hq : ¬(c = q)) (hb : c = '\\')
    (r : List Char) :
    spec_nl_count (NLSt.str q) (c :: r) = spec_nl_count (NLSt.strEsc q) r := by
  rw [spec_nl_count, if_neg hq, if_pos hb]

theorem spec_strEsc_step (q e : Char) (r : List Char) :
    spec_nl_count (NLSt.strEsc q) (e :: r) = spec_nl_count (NLSt.str q) r := by
  rw [spec_nl_count]

theorem spec_str_plain {q c : Char} (hq : ¬(c = q)) (hb : ¬(c = '\\'))
    (r : List Char) :
    spec_nl_count (NLSt.str q) (c :: r) = spec_nl_count (NLSt.str q) r := by
  rw [spec_nl_count, if_neg hq, if_neg hb]

/-- A completed text literal takes the automaton from inside the string
back to mid-line state. -/
theorem scan_text_loop_spec :
    ∀ (n : Nat) (l : List Char), l.length ≤ n →
      ∀ (q : Char) (row col : Nat) (buf b l' : List Char) (r' c' : Nat),
        scan_text_loop q l row col buf = some (b, l', r', c') →
        spec_nl_count (NLSt.str q) l = spec_nl_count NLSt.inLine l' := by
  intro n
  induction n with
  | zero =>
    intro l hl q row col buf b l' r' c' h
    rw [List.length_eq_zero.mp (Nat.le_zero.mp hl)] at h ⊢
    rw [scan_text_loop] at h
    simp only [Option.some.injEq, Prod.mk.injEq] at h
    obtain ⟨-, hl', -⟩ := h
    rw [← hl', spec_nl_nil, spec_nl_nil]
  | succ n ihn =>
    intro l hl q row col buf b l' r' c' h
    cases l with
    | nil =>
      rw [scan_text_loop] at h
      simp only [Option.some.injEq, Prod.mk.injEq] at h
      obtain ⟨-, hl', -⟩ := h
      rw [← hl', spec_nl_nil, spec_nl_nil]
    | cons c rest =>
      cases rest with
      | nil =>
        rw [scan_text_loop] at h
        by_cases hq : c = q
        · rw [if_pos hq] at h
          simp only [Option.some.injEq, Prod.mk.injEq] at h
          obtain ⟨-, hl', -⟩ := h
          rw [← hl', spec_str_close hq]
        · rw [if_neg hq] at h
          by_cases hbs : c = '\\'
          · rw [if_pos hbs] at h
            exact absurd h (by simp)
          · rw [if_neg hbs] at h
            have hrec := ihn [] (by simp) q _ _ _ b l' r' c' h
            rw [spec_str_plain hq hbs]
            exact hrec
      | cons e rest2 =>
        rw [scan_text_loop] at h
        by_cases hq : c = q
        · rw [if_pos hq] at h
          simp only [Option.some.injEq, Prod.mk.injEq] at h
          obtain ⟨-, hl', -⟩ := h
          rw [← hl', spec_str_close hq]
        · rw [if_neg hq] at h
          by_cases hbs : c = '\\'
          · rw [if_pos hbs] at h
            dsimp only at h
            have hrec := ihn rest2 (by simp at hl ⊢; omega) q _ _ _ b l' r' c' h
            rw [spec_str_esc hq hbs, spec_strEsc_step]
            exact hrec
          · rw [if_neg hbs] at h
            have hrec := ihn (e :: rest2) (by simp at hl ⊢; omega) q _ _ _ b l' r' c' h
            rw [spec_str_plain hq hbs]
            exact hrec

/-- A successful association-list lookup means the key is present. -/
theorem lookup_key_mem {α β : Type} [BEq α] [LawfulBEq α] :
    ∀ (l : List (α × β)) (a : α) (v : β),
      l.lookup a = some v → a ∈ l.map Prod.fst := by
  intro l
  induction l with
  | nil => intro a v h; simp [List.lookup] at h
  | cons p t ih =>
    intro a v h
    obtain ⟨k, b⟩ := p
    rw [List.lookup] at h
    split at h
    · rename_i hbt
      simp only [List.map_cons, List.mem_cons]
      exact Or.inl (eq_of_beq hbt)
    · simp only [List.map_cons, List.mem_cons]
      exact Or.inr (ih a v h)

/-- Every character of a two-character operator keeps the automaton in
mid-line state. -/
theorem two_char_keys_plain :
    ∀ s ∈ two_char_ops.map Prod.fst, ∀ c ∈ s.data,
      ¬(c = '\n') ∧ ¬(c = '#') ∧ ¬(c = '"' ∨ c = '\'') := by decide

/-- Every one-character operator keeps the automaton in mid-line state. -/
theorem single_keys_plain :
    ∀ c ∈ single_ops.map Prod.fst,
      ¬(c = '\n') ∧ ¬(c = '#') ∧ ¬(c = '"' ∨ c = '\'') := by decide

set_option maxHeartbeats 1000000 in
/-- Refinement for C5: on every successful scan, the number of NEWLINE
tokens equals the automaton count of newline characters that end
token-bearing lines. -/
theorem tokenize_newline_count :
    ∀ (fuel : Nat) (ls : Bool) (rest : List Char) (row col : Nat)
      (levels : List Nat) (ts : List CodeToken),
      levels ≠ [] →
      tokenize fuel ls rest row col levels = .ok ts →
      countKind TokenKind.NEWLINE ts =
        spec_nl_count (if ls = true then NLSt.lineStart else NLSt.inLine)
          rest := by
  intro fuel
  induction fuel with
  | zero => intro ls rest row col levels ts _ hok; simp [tokenize] at hok
  | succ fuel ih =>
    intro ls rest row col levels ts hlev hok
    cases rest with
    | nil =>
      simp only [tokenize, Except.ok.injEq] at hok
      subst hok
      rw [spec_nl_nil]
      obtain ⟨hfk, -⟩ := flush_dedents_spec levels row col
      have hfN : countKind TokenKind.NEWLINE (flush_dedents levels row col) = 0 := by
        rw [countKind, List.countP_eq_zero]
        intro t ht
        rw [hfk t ht]
        decide
      rw [countKind_append, hfN, countKind_cons]
      rfl
    | cons c0 rest0 =>
      cases ls with
      | true =>
        show countKind TokenKind.NEWLINE ts =
          spec_nl_count NLSt.lineStart (c0 :: rest0)
        simp only [tokenize, if_pos] at hok
        cases htw : take_indent_ws (c0 :: rest0) col 0 with
        | none => rw [htw] at hok; exact absurd hok (by simp)
        | some v =>
          obtain ⟨spaces, rest1, col1⟩ := v
          rw [htw] at hok
          dsimp only at hok
          obtain ⟨hspec1, hstop⟩ := take_indent_ws_spec _ _ _ _ _ _ htw
          rw [hspec1]
          cases rest1 with
          | nil => exact absurd hok (by simp)
          | cons c1 rest2 =>
            dsimp only at hok
            have hc1ws : ¬(c1 = ' ' ∨ c1 = '\t') := hstop c1 rest2 rfl
            by_cases hcom : c1 = '#'
            · rw [if_pos hcom] at hok
              subst hcom
              rcases hsc : skip_comment ('#' :: rest2) col1 with ⟨rest3, col3⟩
              rw [hsc] at hok
              dsimp only at hok
              rw [spec_lineStart_comment]
              rw [skip_comment, if_neg (by decide)] at hsc
              have hsk := skip_comment_spec NLSt.commentBlank (Or.inr rfl)
                rest2 (col1 + 1)
              rw [hsc] at hsk
              dsimp only at hsk
              obtain ⟨hsk1, hshape⟩ := hsk
              rw [← hsk1]
              cases rest3 with
              | nil =>
                dsimp only at hok
                have h2 : countKind TokenKind.NEWLINE ts =
                    spec_nl_count NLSt.lineStart [] := ih _ _ _ _ _ _ hlev hok
                rw [spec_nl_nil] at h2
                rw [spec_nl_nil]
                exact h2
              | cons c3 rest4 =>
                dsimp only at hok
                rcases hshape with hn3 | ⟨r4, hr4⟩
                · exact absurd hn3 (by simp)
                · injection hr4 with he1 he2
                  subst he1
                  subst he2
                  rw [if_pos rfl] at hok
                  have h2 : countKind TokenKind.NEWLINE ts =
                      spec_nl_count NLSt.lineStart rest4 := ih _ _ _ _ _ _ hlev hok
                  rw [spec_commentBlank_nl]
                  exact h2
            · rw [if_neg hcom] at hok
              by_cases hnl : c1 = '\n'
              · rw [if_pos hnl] at hok
                subst hnl
                have h2 : countKind TokenKind.NEWLINE ts =
                    spec_nl_count NLSt.lineStart rest2 := ih _ _ _ _ _ _ hlev hok
                rw [spec_lineStart_nl]
                exact h2
              · rw [if_neg hnl] at hok
                rcases hh : handle_line_indent levels spaces row with ⟨levels', toks⟩
                rw [hh] at hok
                dsimp only at hok
                cases hrec : tokenize fuel false (c1 :: rest2) row col1 levels' with
                | error e =>
                  rw [hrec] at hok
                  exact absurd hok (by simp [Functor.map, Except.map])
                | ok ts' =>
                  rw [hrec] at hok
                  simp only [Functor.map, Except.map, Except.ok.injEq] at hok
                  subst hok
                  obtain ⟨hne', -, -⟩ := handle_line_indent_spec levels spaces row hlev
                  rw [hh] at hne'
                  dsimp only at hne'
                  have h2 : countKind TokenKind.NEWLINE ts' =
                      spec_nl_count NLSt.inLine (c1 :: rest2) :=
                    ih _ _ _ _ _ _ hne' hrec
                  have htoks : countKind TokenKind.NEWLINE toks = 0 := by
                    have hh2 := handle_line_indent_nl levels spaces row hlev
                    rw [hh] at hh2
                    exact hh2
                  rw [countKind_append, htoks, Nat.zero_add, h2]
                  exact (spec_lineStart_inLine rest2 hc1ws hnl hcom).symm
      | false =>
        show countKind TokenKind.NEWLINE ts =
          spec_nl_count NLSt.inLine (c0 :: rest0)
        simp only [tokenize] at hok
        rw [if_neg (by decide : ¬ ((false : Bool) = true))] at hok
        by_cases hws : c0 = ' ' ∨ c0 = '\t'
        · rw [if_pos hws] at hok
          have h2 : countKind TokenKind.NEWLINE ts =
              spec_nl_count NLSt.inLine rest0 := ih _ _ _ _ _ _ hlev hok
          have hplain : ¬(c0 = '\n') ∧ ¬(c0 = '#') ∧ ¬(c0 = '"' ∨ c0 = '\'') := by
            rcases hws with rfl | rfl <;> exact ⟨by decide, by decide, by decide⟩
          rw [spec_inLine_plain rest0 hplain.1 hplain.2.1 hplain.2.2]
          exact h2
        · rw [if_neg hws] at hok
          by_cases hnl : c0 = '\n'
          · rw [if_pos hnl] at hok
            subst hnl
            cases hrec : tokenize fuel true rest0 (row + 1) 1 levels with
            | error e =>
              rw [hrec] at hok
              exact absurd hok (by simp [Functor.map, Except.map])
            | ok ts' =>
              rw [hrec] at hok
              simp only [Functor.map, Except.map, Except.ok.injEq] at hok
              subst hok
              have h2 : countKind TokenKind.NEWLINE ts' =
                  spec_nl_count NLSt.lineStart rest0 := ih _ _ _ _ _ _ hlev hrec
              rw [spec_inLine_nl, countKind_cons, if_pos rfl, h2]
              omega
          · rw [if_neg hnl] at hok
            by_cases hcm : c0 = '#'
            · rw [if_pos hcm] at hok
              subst hcm
              rcases hsc : skip_comment ('#' :: rest0) col with ⟨rest1, col1⟩
              rw [hsc] at hok
              dsimp only at hok
              rw [spec_inLine_comment]
              rw [skip_comment, if_neg (by decide)] at hsc
              have hsk := skip_comment_spec NLSt.commentTok (Or.inl rfl)
                rest0 (col + 1)
              rw [hsc] at hsk
              dsimp only at hsk
              obtain ⟨hsk1, hshape⟩ := hsk
              rw [← hsk1]
              rcases hshape with hshape | ⟨r4, hshape⟩
              · subst hshape
                have h2 : countKind TokenKind.NEWLINE ts =
                    spec_nl_count NLSt.inLine [] := ih _ _ _ _ _ _ hlev hok
                rw [spec_nl_nil] at h2
                rw [spec_nl_nil]
                exact h2
              · subst hshape
                have h2 : countKind TokenKind.NEWLINE ts =
                    spec_nl_count NLSt.inLine ('\n' :: r4) :=
                  ih _ _ _ _ _ _ hlev hok
                rw [spec_inLine_nl] at h2
                rw [spec_commentTok_nl]
                exact h2
            · rw [if_neg hcm] at hok
              by_cases hdg : c0.isDigit
              · rw [if_pos hdg] at hok
                rcases hsn : scan_numeric_loop (c0 :: rest0) col [] false with
                  ⟨buffer, hasDec, rest1, col1⟩
                rw [hsn] at hok
                dsimp only at hok
                cases hrec : tokenize fuel false rest1 row col1 levels with
                | error e =>
                  rw [hrec] at hok
                  exact absurd hok (by simp [Functor.map, Except.map])
                | ok ts' =>
                  rw [hrec] at hok
                  simp only [Functor.map, Except.map, Except.ok.injEq] at hok
                  subst hok
                  have h2 : countKind TokenKind.NEWLINE ts' =
                      spec_nl_count NLSt.inLine rest1 := ih _ _ _ _ _ _ hlev hrec
                  have hspec := scan_numeric_loop_spec (c0 :: rest0) col [] false
                  rw [hsn] at hspec
                  dsimp only at hspec
                  rw [← hspec]
                  cases hasDec with
                  | true =>
                    rw [countKind_cons_ne ts'
                      (by decide : (TokenKind.NUM_FLOAT : Nat) ≠ TokenKind.NEWLINE)]
                    exact h2
                  | false =>
                    rw [countKind_cons_ne ts'
                      (by decide : (TokenKind.NUM_INT : Nat) ≠ TokenKind.NEWLINE)]
                    exact h2
              · rw [if_neg hdg] at hok
                by_cases hqt : c0 = '"' ∨ c0 = '\''
                · rw [if_pos hqt] at hok
                  cases hst : scan_text_loop c0 rest0 row (col + 1) [] with
                  | none => rw [hst] at hok; exact absurd hok (by simp)
                  | some v =>
                    obtain ⟨buffer, rest1, row1, col1⟩ := v
                    rw [hst] at hok
                    dsimp only at hok
                    cases hrec : tokenize fuel false rest1 row1 col1 levels with
                    | error e =>
                      rw [hrec] at hok
                      exact absurd hok (by simp [Functor.map, Except.map])
                    | ok ts' =>
                      rw [hrec] at hok
                      simp only [Functor.map, Except.map, Except.ok.injEq] at hok
                      subst hok
                      have h2 : countKind TokenKind.NEWLINE ts' =
                          spec_nl_count NLSt.inLine rest1 :=
                        ih _ _ _ _ _ _ hlev hrec
                      have hspec := scan_text_loop_spec rest0.length rest0
                        (le_refl _) c0 row (col + 1) [] buffer rest1 row1 col1 hst
                      rw [spec_inLine_quote hqt, hspec,
                        countKind_cons_ne ts'
                          (by decide : (TokenKind.TEXT : Nat) ≠ TokenKind.NEWLINE)]
                      exact h2
                · rw [if_neg hqt] at hok
                  by_cases hal : c0.isAlpha ∨ c0 = '_'
                  · rw [if_pos hal] at hok
                    rcases hsi : scan_identifier_loop (c0 :: rest0) col [] with
                      ⟨buffer, rest1, col1⟩
                    rw [hsi] at hok
                    dsimp only at hok
                    cases hrec : tokenize fuel false rest1 row col1 levels with
                    | error e =>
                      rw [hrec] at hok
                      exact absurd hok (by simp [Functor.map, Except.map])
                    | ok ts' =>
                      rw [hrec] at hok
                      simp only [Functor.map, Except.map, Except.ok.injEq] at hok
                      subst hok
                      have h2 : countKind TokenKind.NEWLINE ts' =
                          spec_nl_count NLSt.inLine rest1 :=
                        ih _ _ _ _ _ _ hlev hrec
                      have hspec := scan_identifier_loop_spec (c0 :: rest0) col []
                      rw [hsi] at hspec
                      dsimp only at hspec
                      rw [← hspec,
                        countKind_cons_ne ts'
                          (Nat.ne_of_lt (reserved_kind_lt (String.mk buffer)))]
                      exact h2
                  · rw [if_neg hal] at hok
                    cases rest0 with
                    | nil =>
                      dsimp only at hok
                      cases h2c : two_char_ops.lookup (String.mk [c0]) with
                      | some k =>
                        rw [h2c] at hok
                        dsimp only at hok
                        cases hrec : tokenize fuel false ([] : List Char).tail
                            row (col + 2) levels with
                        | error e =>
                          rw [hrec] at hok
                          exact absurd hok (by simp [Functor.map, Except.map])
                        | ok ts' =>
                          rw [hrec] at hok
                          simp only [Functor.map, Except.map, Except.ok.injEq] at hok
                          subst hok
                          have h2 : countKind TokenKind.NEWLINE ts' =
                              spec_nl_count NLSt.inLine [] :=
                            ih _ _ _ _ _ _ hlev hrec
                          have hmem := lookup_key_mem _ _ _ h2c
                          have hpl := two_char_keys_plain (String.mk [c0]) hmem c0
                            (by show c0 ∈ [c0]; simp)
                          have hklt : k < 62 := by
                            simpa using two_char_vals_lt k (lookup_val_mem _ _ k h2c)
                          rw [spec_inLine_plain [] hpl.1 hpl.2.1 hpl.2.2,
                            countKind_cons_ne ts' (Nat.ne_of_lt hklt)]
                          exact h2
                      | none =>
                        rw [h2c] at hok
                        dsimp only at hok
                        cases h1c : single_ops.lookup c0 with
                        | some k =>
                          rw [h1c] at hok
                          dsimp only at hok
                          cases hrec : tokenize fuel false [] row (col + 1)
                              levels with
                          | error e =>
                            rw [hrec] at hok
                            exact absurd hok (by simp [Functor.map, Except.map])
                          | ok ts' =>
                            rw [hrec] at hok
                            simp only [Functor.map, Except.map, Except.ok.injEq] at hok
                            subst hok
                            have h2 : countKind TokenKind.NEWLINE ts' =
                                spec_nl_count NLSt.inLine [] :=
                              ih _ _ _ _ _ _ hlev hrec
                            have hmem := lookup_key_mem _ _ _ h1c
                            have hpl := single_keys_plain c0 hmem
                            have hklt : k < 62 := by
                              simpa using single_vals_lt k (lookup_val_mem _ _ k h1c)
                            rw [spec_inLine_plain [] hpl.1 hpl.2.1 hpl.2.2,
                              countKind_cons_ne ts' (Nat.ne_of_lt hklt)]
                            exact h2
                        | none =>
                          rw [h1c] at hok
                          dsimp only at hok
                          exact absurd hok (by simp)
                    | cons c1 rest0' =>
                      dsimp only at hok
                      cases h2c : two_char_ops.lookup (String.mk [c0, c1]) with
                      | some k =>
                        rw [h2c] at hok
                        dsimp only at hok
                        cases hrec : tokenize fuel false (c1 :: rest0').tail
                            row (col + 2) levels with
                        | error e =>
                          rw [hrec] at hok
                          exact absurd hok (by simp [Functor.map, Except.map])
                        | ok ts' =>
                          rw [hrec] at hok
                          simp only [Functor.map, Except.map, Except.ok.injEq] at hok
                          subst hok
                          have h2 : countKind TokenKind.NEWLINE ts' =
                              spec_nl_count NLSt.inLine rest0' :=
                            ih _ _ _ _ _ _ hlev hrec
                          have hmem := lookup_key_mem _ _ _ h2c
                          have hp0 := two_char_keys_plain (String.mk [c0, c1])
                            hmem c0 (by show c0 ∈ [c0, c1]; simp)
                          have hp1 := two_char_keys_plain (String.mk [c0, c1])
                            hmem c1 (by show c1 ∈ [c0, c1]; simp)
                          have hklt : k < 62 := by
                            simpa using two_char_vals_lt k (lookup_val_mem _ _ k h2c)
                          rw [spec_inLine_plain (c1 :: rest0') hp0.1 hp0.2.1 hp0.2.2,
                            spec_inLine_plain rest0' hp1.1 hp1.2.1 hp1.2.2,
                            countKind_cons_ne ts' (Nat.ne_of_lt hklt)]
                          exact h2
                      | none =>
                        rw [h2c] at hok
                        dsimp only at hok
                        cases h1c : single_ops.lookup c0 with
                        | some k =>
                          rw [h1c] at hok
                          dsimp only at hok
                          cases hrec : tokenize fuel false (c1 :: rest0')
                              row (col + 1) levels with
                          | error e =>
                            rw [hrec] at hok
                            exact absurd hok (by simp [Functor.map, Except.map])
                          | ok ts' =>
                            rw [hrec] at hok
                            simp only [Functor.map, Except.map, Except.ok.injEq] at hok
                            subst hok
                            have h2 : countKind TokenKind.NEWLINE ts' =
                                spec_nl_count NLSt.inLine (c1 :: rest0') :=
                              ih _ _ _ _ _ _ hlev hrec
                            have hmem := lookup_key_mem _ _ _ h1c
                            have hpl := single_keys_plain c0 hmem
                            have hklt : k < 62 := by
                              simpa using single_vals_lt k (lookup_val_mem _ _ k h1c)
                            rw [spec_inLine_plain (c1 :: rest0') hpl.1 hpl.2.1 hpl.2.2,
                              countKind_cons_ne ts' (Nat.ne_of_lt hklt)]
                            exact h2
                        | none =>
                          rw [h1c] at hok
                          dsimp only at hok
                          exact absurd hok (by simp)

/-- C5 (amended): on every successful scan, the NEWLINE-token count equals
the number of newline characters that lie outside string literals and end a
line carrying at least one token (newlines of blank and comment-only lines
are skipped without a token). -/
theorem newline_count_amended :
    ∀ (s : String) (ts : List CodeToken),
      scan s = .ok ts →
      countKind TokenKind.NEWLINE ts = spec_nl_count NLSt.lineStart s.data := by
  intro s ts h
  rw [scan] at h
  exact tokenize_newline_count _ _ _ _ _ _ _ (by simp) h

/-- Witness for the amended C5 statement at the source `"x\n\ny"`: one
NEWLINE token, the blank line's newline uncounted. -/
theorem newline_count_amended_witness :
    scan "x\n\ny" =
      .ok [⟨TokenKind.NAME, "x", Val.str "x", 1, 1⟩,
           ⟨TokenKind.NEWLINE, "\n", Val.str "\n", 1, 2⟩,
           ⟨TokenKind.NAME, "y", Val.str "y", 3, 1⟩,
           ⟨TokenKind.END, "", Val.none, 3, 2⟩] ∧
    countKind TokenKind.NEWLINE
        [⟨TokenKind.NAME, "x", Val.str "x", 1, 1⟩,
         ⟨TokenKind.NEWLINE, "\n", Val.str "\n", 1, 2⟩,
         ⟨TokenKind.NAME, "y", Val.str "y", 3, 1⟩,
         ⟨TokenKind.END, "", Val.none, 3, 2⟩] =
      spec_nl_count NLSt.lineStart "x\n\ny".data :=
  ⟨by rfl, newline_count_amended "x\n\ny" _ (by rfl)⟩

end RLangC
